import Mathlib

/-!
Verification development for the MCFGParser repository.

The definitions below are a shallow embedding of the Python sources
(`MCFG.py`, `aux_functions_and_classes.py`, `simplified_rules.py`):
pure functions become Lean functions, the mutable parser/chart state
becomes an explicit `ParserState` threaded through every operation, and
unbounded `while` loops take an explicit fuel argument.  Python `dict`s
keyed by item id become association lists preserving insertion order;
Python `set`s are determinised as insertion-ordered duplicate-free lists
(the claims settled here do not depend on set iteration order).
-/

namespace MCFGParse

/-- Leading-match test on character lists. -/
def leadingMatch : List Char → List Char → Bool
  | [], _ => true
  | _ :: _, [] => false
  | a :: as, b :: bs => a == b && leadingMatch as bs

/-- Contiguous containment of `sub` in `hay` as character lists. -/
def infixAt : List Char → List Char → Bool
  | sub, [] => sub.isEmpty
  | sub, c :: rest => leadingMatch sub (c :: rest) || infixAt sub rest

/-- Substring test, mirroring Python's `sub in hay` on strings. -/
def strContains (hay sub : String) : Bool :=
  infixAt sub.data hay.data

/-- Split a character list at every occurrence of a separator, keeping empty
groups (the semantics of Python's `str.split(' ')` with a one-character
separator). -/
def splitCharsOn (sep : Char) : List Char → List (List Char)
  | [] => [[]]
  | c :: cs =>
    let r := splitCharsOn sep cs
    if c == sep then [] :: r
    else
      match r with
      | [] => [[c]]
      | g :: gs => (c :: g) :: gs

/-- Python's `text.split(' ')`. -/
def splitOnSpace (s : String) : List String :=
  (splitCharsOn ' ' s.data).map String.mk

/-- Python's `' '.join(l)`. -/
def joinSpace : List String → String
  | [] => ""
  | [x] => x
  | x :: xs => x ++ " " ++ joinSpace xs

/-- Insert a string into an insertion-ordered duplicate-free list. -/
def addStr (l : List String) (x : String) : List String :=
  if l.contains x then l else l ++ [x]

/-- Union of an insertion-ordered set with a list of strings. -/
def addStrs (l : List String) (xs : List String) : List String :=
  xs.foldl addStr l

/-- Determinised Python `set(...)` of a string list: first occurrences, in order. -/
def dedupStrs (l : List String) : List String :=
  addStrs [] l

/-- Decimal digit character. -/
def digitCh (n : Nat) : Char := Char.ofNat (48 + n % 10)

/-- Fueled decimal rendering of a natural number. -/
def natToStrAux : Nat → Nat → List Char
  | 0, _ => []
  | fuel + 1, n =>
    if n < 10 then [digitCh n]
    else natToStrAux fuel (n / 10) ++ [digitCh (n % 10)]

/-- Python's `str(n)` for a natural number. -/
def natToStr (n : Nat) : String := String.mk (natToStrAux (n + 1) n)

/-- All ways to pick one element of a list, keeping the remainder, in order. -/
def pickEach : List Nat → List (Nat × List Nat)
  | [] => []
  | x :: xs => (x, xs) :: (pickEach xs).map (fun p => (p.1, x :: p.2))

/-- Permutation generator (fueled by length). -/
def lexPermsAux : Nat → List Nat → List (List Nat)
  | 0, _ => [[]]
  | _ + 1, [] => [[]]
  | n + 1, l => (pickEach l).flatMap (fun p => (lexPermsAux n p.2).map (fun q => p.1 :: q))

/-- Permutations of `[0..n)` in the order `itertools.permutations(range(n))` yields them
(lexicographic), as used by `MCFGFunc.get_all_possible_orders_for_result_vector`. -/
def lexPerms (n : Nat) : List (List Nat) :=
  lexPermsAux n (List.range n)

/-- Embedding of the `MCFGFunc` class: a named MCFG function with formal
argument names and a result vector of components (lists of atoms). -/
structure MCFGFunc where
  func_name : String
  input_args : List String
  result_vector : List (List String)
deriving DecidableEq, Repr

/-- The right-hand side of a rule after `connect_rules_to_funcs`: either the
terminal string (terminating rule) or the resolved function object. -/
inductive RuleRHS where
  | term (t : String)
  | fn (f : MCFGFunc)
deriving DecidableEq, Repr

/-- Embedding of the `MCFGRule` class.  The `used` flag is the per-parse
prediction marker mutated by `mark_used`; `is_terminating_rule` is set by
`connect_rules_to_funcs`. -/
structure MCFGRule where
  symbol : String
  rhs : RuleRHS
  vars : List String
  used : Bool
  is_terminating_rule : Bool
deriving DecidableEq, Repr

instance : Inhabited MCFGRule :=
  ⟨{ symbol := "", rhs := .term "", vars := [], used := false, is_terminating_rule := false }⟩

/-- Structural equality of right-hand sides.  `MCFGFunc.__eq__` compares name,
formals and result vector.  Comparing a terminal string with a function object
is modelled as `false` (no claim exercises that mixed comparison). -/
def rhsBeq : RuleRHS → RuleRHS → Bool
  | .term a, .term b => a == b
  | .fn f, .fn g =>
      f.func_name == g.func_name && f.input_args == g.input_args &&
        f.result_vector == g.result_vector
  | _, _ => false

/-- Embedding of `MCFGRule.__eq__`: compares symbol, function and vars, and
ignores the `used` and `is_terminating_rule` flags. -/
def ruleBeq (r s : MCFGRule) : Bool :=
  r.symbol == s.symbol && rhsBeq r.rhs s.rhs && r.vars == s.vars

/-- Embedding of the `ActiveItem` class.  `id` and `antecedent_ids` are the
two fields ignored by `ActiveItem.__eq__`. -/
structure ActiveItem where
  symbol : String
  dot_position : Nat × Nat
  found_start : Nat
  found_end : Nat
  range_order : List Nat
  token_index : Nat
  action_type : String
  rule : MCFGRule
  found_sequence : List String
  antecedent_ids : List Nat
  scanned : Bool
  combined : Bool
  ignored : Bool
  id : Nat
  vector_binding : List (List String)
deriving DecidableEq, Repr

instance : Inhabited ActiveItem :=
  ⟨{ symbol := "", dot_position := (0, 0), found_start := 0, found_end := 0,
     range_order := [], token_index := 0, action_type := "", rule := default,
     found_sequence := [], antecedent_ids := [], scanned := false, combined := false,
     ignored := false, id := 0, vector_binding := [] }⟩

/-- Embedding of `ActiveItem.__eq__`: compares every instance attribute except
`id` and `antecedent_ids` (so the mutable flags `scanned`, `combined`,
`ignored` are compared, and the rule is compared via `MCFGRule.__eq__`). -/
def itemBeq (a b : ActiveItem) : Bool :=
  a.symbol == b.symbol && a.dot_position == b.dot_position &&
    a.found_start == b.found_start && a.found_end == b.found_end &&
    a.range_order == b.range_order && a.token_index == b.token_index &&
    a.action_type == b.action_type && ruleBeq a.rule b.rule &&
    a.found_sequence == b.found_sequence && a.scanned == b.scanned &&
    a.combined == b.combined && a.ignored == b.ignored &&
    a.vector_binding == b.vector_binding

/-- Name part of a placeholder atom, as extracted by the regex
`([^\(]*)\((.*)\)` (everything before the first open paren). -/
def atomRefName (s : String) : String :=
  String.mk (s.data.takeWhile (fun c => c != '('))

/-- Index part of a placeholder atom: between the first open paren and the
final close paren. -/
def atomRefIndex (s : String) : String :=
  String.mk ((s.data.drop ((s.data.takeWhile (fun c => c != '(')).length + 1)).dropLast)

/-- Embedding of `MCFGParser.call_func`: instantiate a function's result
vector by substituting the actual variables into placeholder references. -/
def call_func (terminals : List String) (func : MCFGFunc) (args : List String) :
    List (List String) :=
  func.result_vector.map (fun component =>
    component.map (fun item =>
      if terminals.contains item then item
      else
        let argIndex := func.input_args.findIdx (fun a => a == atomRefName item)
        let arg := args.getD argIndex ""
        arg ++ "(" ++ atomRefIndex item ++ ")"))

/-! ## Grammar simplification (`simplified_rules.py`) -/

/-- Insert a rule into an insertion-ordered set (Python `set.add` with
`MCFGRule.__eq__` as the membership test). -/
def addRule (l : List MCFGRule) (r : MCFGRule) : List MCFGRule :=
  if l.any (ruleBeq r) then l else l ++ [r]

/-- Remove the first `MCFGRule.__eq__`-equal occurrence (Python `list.remove`). -/
def removeRule : List MCFGRule → MCFGRule → List MCFGRule
  | [], _ => []
  | x :: xs, r => if ruleBeq x r then xs else x :: removeRule xs r

/-- Embedding of `SimplifiedRules.get_right_hand_side`.  For a terminating
rule the source computes `set(rule.function)` — the set of characters of the
terminal string — so we return its characters as one-character strings. -/
def get_right_hand_side (terminals : List String) (r : MCFGRule) : List String :=
  match r.rhs with
  | .term t => dedupStrs (t.data.map (fun c => String.mk [c]))
  | .fn f =>
      f.result_vector.foldl (fun acc v =>
        v.foldl (fun acc c =>
          let c' :=
            if terminals.contains c then c
            else r.vars.getD (f.input_args.findIdx (fun a => a == atomRefName c)) ""
          addStr acc c') acc) []

/-- Embedding of `SimplifiedRules.all_vector_components_in_set`. -/
def all_vector_components_in_set (l : List String) (preds : List String) : Bool :=
  l.all preds.contains

/-- Embedding of `SimplifiedRules.update_original_rules`: remove every useful
rule from the remaining originals, reporting whether any was removed. -/
def update_original_rules (useful : List MCFGRule) (original : List MCFGRule) :
    List MCFGRule × Bool :=
  useful.foldl
    (fun (p : List MCFGRule × Bool) r =>
      if p.1.any (ruleBeq r) then (removeRule p.1 r, true) else p)
    (original, false)

/-- One productive-closure pass: add every remaining rule whose right-hand
side lies in the predicate set, growing the set as the pass proceeds. -/
def usefulPass (terminals : List String) (original : List MCFGRule)
    (acc : List MCFGRule × List String) : List MCFGRule × List String :=
  original.foldl
    (fun (p : List MCFGRule × List String) r =>
      if all_vector_components_in_set (get_right_hand_side terminals r) p.2 then
        (addRule p.1 r, addStr p.2 r.symbol)
      else p)
    acc

/-- The `while found_useful_rules` loop of `eliminate_useless_rules`,
fueled by the number of remaining rules. -/
def uselessLoop (terminals : List String) :
    Nat → List MCFGRule → List MCFGRule → List String → List MCFGRule
  | 0, useful, _, _ => useful
  | n + 1, useful, original, preds =>
      let up := usefulPass terminals original (useful, preds)
      let uo := update_original_rules up.1 original
      if uo.2 then uselessLoop terminals n up.1 uo.1 up.2 else up.1

/-- Embedding of `SimplifiedRules.eliminate_useless_rules`. -/
def eliminate_useless_rules (terminals : List String) (rules : List MCFGRule) :
    List MCFGRule :=
  let start := rules.foldl
    (fun (p : List MCFGRule × List String) r =>
      if r.is_terminating_rule then (addRule p.1 r, addStr p.2 r.symbol) else p)
    ([], terminals)
  let up := usefulPass terminals rules start
  let uo := update_original_rules up.1 rules
  if !uo.2 then []
  else uselessLoop terminals (rules.length + 1) up.1 uo.1 up.2

/-- One reachability pass of `eliminate_unreachable_rules`. -/
def reachablePass (terminals : List String) (original : List MCFGRule)
    (acc : List MCFGRule × List String) : List MCFGRule × List String :=
  original.foldl
    (fun (p : List MCFGRule × List String) r =>
      if p.2.contains r.symbol then
        (addRule p.1 r, addStrs p.2 (get_right_hand_side terminals r))
      else p)
    acc

/-- The `while found_reachable_rules` loop of `eliminate_unreachable_rules`. -/
def reachableLoop (terminals : List String) :
    Nat → List MCFGRule → List MCFGRule → List String → List MCFGRule
  | 0, reachable, _, _ => reachable
  | n + 1, reachable, original, preds =>
      let rp := reachablePass terminals original (reachable, preds)
      let ro := update_original_rules rp.1 original
      if ro.2 then reachableLoop terminals n rp.1 ro.1 rp.2 else rp.1

/-- Embedding of `SimplifiedRules.eliminate_unreachable_rules`. -/
def eliminate_unreachable_rules (terminals : List String) (start_symbol : String)
    (rules : List MCFGRule) : List MCFGRule :=
  let startP := rules.foldl
    (fun (p : List MCFGRule × List String) r =>
      if r.symbol == start_symbol then
        (addRule p.1 r, addStrs p.2 (get_right_hand_side terminals r))
      else p)
    ([], [])
  let ro := update_original_rules startP.1 rules
  if !ro.2 then []
  else reachableLoop terminals (rules.length + 1) startP.1 ro.1 startP.2

/-- Embedding of `SimplifiedRules.simplify`. -/
def simplify (terminals : List String) (start_symbol : String)
    (rules : List MCFGRule) : List MCFGRule :=
  eliminate_unreachable_rules terminals start_symbol
    (eliminate_useless_rules terminals rules)

/-! ## Grammar construction (`MCFG.__init__` in `aux_functions_and_classes.py`) -/

/-- A raw rule before `connect_rules_to_funcs`: symbol, right-hand-side name
(terminal or function name), and variable list. -/
structure RawRule where
  symbol : String
  fname : String
  vars : List String
deriving Repr

/-- Embedding of `MCFG.connect_rules_to_funcs`: resolve function names
against the function table and mark terminating rules. -/
def connect_rules_to_funcs (terminals : List String) (functions : List MCFGFunc)
    (raw : List RawRule) : List MCFGRule :=
  raw.map (fun r =>
    if terminals.contains r.fname then
      { symbol := r.symbol, rhs := .term r.fname, vars := r.vars, used := false,
        is_terminating_rule := true }
    else
      { symbol := r.symbol,
        rhs := .fn (((functions.find? (fun f => f.func_name == r.fname)).getD
          { func_name := "", input_args := [], result_vector := [] })),
        vars := r.vars, used := false, is_terminating_rule := false })

/-- Embedding of the `MCFG` grammar object after construction: the rules are
the connected, simplified rules. -/
structure MCFG where
  start_symbol : String
  terminals : List String
  rules : List MCFGRule
deriving Repr

/-- Embedding of `MCFG.__init__` (with default start symbol `S`). -/
def mkMCFG (terminals : List String) (functions : List MCFGFunc) (raw : List RawRule)
    (start_symbol : String := "S") : MCFG :=
  { start_symbol := start_symbol, terminals := terminals,
    rules := simplify terminals start_symbol
      (connect_rules_to_funcs terminals functions raw) }

/-! ## Parser and chart state

Python items are shared mutable objects: the same `ActiveItem` object sits in
`all_items` and in the role dicts, and setting a flag on it is visible
everywhere.  We therefore keep the single authoritative copy of every item in
the association list `all_items` and store only ids in the role collections;
every read refetches the current copy by id. -/

/-- Lookup in an id-keyed association list (first match). -/
def aLookup (l : List (Nat × ActiveItem)) (k : Nat) : Option ActiveItem :=
  (l.find? (fun p => p.1 == k)).map (fun p => p.2)

/-- Insert or replace in an id-keyed association list, preserving positions
of existing keys and appending new keys (Python dict semantics). -/
def aSet : List (Nat × ActiveItem) → Nat → ActiveItem → List (Nat × ActiveItem)
  | [], k, v => [(k, v)]
  | p :: ps, k, v => if p.1 == k then (k, v) :: ps else p :: aSet ps k v

/-- The three item roles of `MCFGParserChart` (`all_items` is kept apart). -/
inductive Role where
  | active
  | completedComp
  | completed
deriving DecidableEq, Repr

/-- Embedding of the mutable state of `MCFGParser` plus its
`MCFGParserChart`: grammar rules (whose `used` flags mutate), the chart
collections, and the global `ActiveItem.items_counter`. -/
structure ParserState where
  start_symbol : String
  terminals : List String
  rules : List MCFGRule
  tokens : List String
  text : String
  all_items : List (Nat × ActiveItem)
  active_ids : List Nat
  completed_comp_ids : List Nat
  completed_ids : List Nat
  prediction_strategy : List String
  combined_couples : List (Nat × Nat)
  counter : Nat
deriving Repr

/-- Initial state built by `MCFGParser.parse` before the token loop. -/
def initState (g : MCFG) (text : String) : ParserState :=
  { start_symbol := g.start_symbol, terminals := g.terminals, rules := g.rules,
    tokens := splitOnSpace text, text := text, all_items := [], active_ids := [],
    completed_comp_ids := [], completed_ids := [], prediction_strategy := [],
    combined_couples := [], counter := 0 }

/-- Current ids stored under a role. -/
def roleIds (s : ParserState) : Role → List Nat
  | .active => s.active_ids
  | .completedComp => s.completed_comp_ids
  | .completed => s.completed_ids

/-- Replace the id list of a role. -/
def setRoleIds (s : ParserState) : Role → List Nat → ParserState
  | .active, l => { s with active_ids := l }
  | .completedComp, l => { s with completed_comp_ids := l }
  | .completed, l => { s with completed_ids := l }

/-- Fetch the authoritative copy of an item. -/
def lookupItem (s : ParserState) (k : Nat) : Option ActiveItem :=
  aLookup s.all_items k

/-- Ids of the non-`ignored` items of a role, in insertion order
(`MCFGParserChart.get_items_list`). -/
def nonIgnoredIds (s : ParserState) (role : Role) : List Nat :=
  (roleIds s role).filter (fun j =>
    match lookupItem s j with
    | some it => !it.ignored
    | none => false)

/-- Embedding of `MCFGParserChart.get_items_list` for the three roles. -/
def get_items_list (s : ParserState) (role : Role) : List ActiveItem :=
  (roleIds s role).filterMap (fun j =>
    match lookupItem s j with
    | some it => if it.ignored then none else some it
    | none => none)

/-- Embedding of `MCFGParserChart.all_terminals`: every space-separated word
of every entry is a terminal. -/
def all_terminals (terminals : List String) (l : List String) : Bool :=
  l.all (fun str => (splitOnSpace str).all terminals.contains)

/-- The compatibility predicate applied by
`MCFGParserChart.filter_out_non_compatible_items` to a single item. -/
def compatibleItem (terminals : List String) (originalText : String)
    (it : ActiveItem) : Bool :=
  !all_terminals terminals it.found_sequence ||
    strContains originalText (joinSpace it.found_sequence)

/-- Embedding of `MCFGParserChart.filter_out_non_compatible_items`. -/
def filter_out_non_compatible_items (s : ParserState) (items : List ActiveItem) :
    List ActiveItem :=
  items.filter (compatibleItem s.terminals (joinSpace s.tokens))

/-- Embedding of the per-item body of `MCFGParserChart.add_items_to_chart`:
store into `all_items`, flag the incoming item `ignored` when a structurally
equal item is already among the role's values, and record the id under the
role.  The refetch via `lookupItem` models Python object aliasing (the second
insertion of the same object sees flags set by the first). -/
def addOneItemToChart (s : ParserState) (role : Role) (it0 : ActiveItem) :
    ParserState :=
  let it := (lookupItem s it0.id).getD it0
  let s1 := { s with all_items := aSet s.all_items it.id it }
  let dup := (roleIds s1 role).any (fun j =>
    match lookupItem s1 j with
    | some x => itemBeq x it
    | none => false)
  let it' := if dup then { it with ignored := true } else it
  let s2 := { s1 with all_items := aSet s1.all_items it.id it' }
  if (roleIds s2 role).contains it.id then s2
  else setRoleIds s2 role (roleIds s2 role ++ [it.id])

/-- Embedding of `MCFGParserChart.add_items_to_chart` over a list. -/
def add_items_to_chart (s : ParserState) (items : List ActiveItem) (role : Role) :
    ParserState :=
  items.foldl (fun s it => addOneItemToChart s role it) s

/-- Embedding of `MCFGParserChart.add_active_items_to_chart`; the Bool is
`True` when the filtered list is non-empty. -/
def add_active_items_to_chart (s : ParserState) (items : List ActiveItem) :
    Bool × ParserState :=
  let filtered := filter_out_non_compatible_items s items
  (!filtered.isEmpty, add_items_to_chart s filtered .active)

/-- The per-item body of `add_completed_items_to_chart`: a fully complete
item (dot past the last component) goes to the completed role and its id is
popped from the active role. -/
def add_completed_one (s : ParserState) (it : ActiveItem) : ParserState :=
  if it.dot_position.1 == it.vector_binding.length then
    let s := add_items_to_chart s [it] .completed
    { s with active_ids := s.active_ids.erase it.id }
  else s

/-- Embedding of `MCFGParserChart.add_completed_items_to_chart` over a
list. -/
def add_completed_items_to_chart (s : ParserState) (items : List ActiveItem) :
    Bool × ParserState :=
  let filtered := filter_out_non_compatible_items s items
  let s := filtered.foldl add_completed_one s
  (!filtered.isEmpty, add_items_to_chart s filtered .completedComp)

/-- Embedding of `MCFGParserChart.add_item_to_prediction_strategy`: the whole
set is added to the frontier when some element is non-empty and not a
terminal. -/
def add_item_to_prediction_strategy (s : ParserState) (strategySet : List String) :
    ParserState :=
  if strategySet.any (fun x => x != "" && !s.terminals.contains x) then
    { s with prediction_strategy := addStrs s.prediction_strategy strategySet }
  else s

/-- Embedding of `MCFGParserChart.check_if_couple_is_already_combined`. -/
def couple_combined (s : ParserState) (p : Nat × Nat) : Bool :=
  s.combined_couples.contains (p.1, p.2) || s.combined_couples.contains (p.2, p.1)

/-! ## Item-level helpers (`ActiveItem` methods and parser auxiliaries) -/

/-- Embedding of `MCFGParser.get_symbol_after_dot`: the `try/except` around
the two index accesses becomes `Option`-returning bounds-checked lookups. -/
def get_symbol_after_dot (it : ActiveItem) : Option String :=
  match it.range_order.get? it.dot_position.1 with
  | none => none
  | some c =>
    match it.vector_binding.get? c with
    | none => none
    | some comp => comp.get? it.dot_position.2

/-- Embedding of `ActiveItem.get_next_dot_position_and_check_if_complete`.
Note the source reads the component as `vector_binding[dot_position[0]]`
(not through `range_order`). -/
def get_next_dot_position_and_check_if_complete (it : ActiveItem) (force : Bool) :
    (Nat × Nat) × Bool :=
  let comp := it.vector_binding.getD it.dot_position.1 []
  if force then ((it.dot_position.1 + 1, 0), false)
  else
    let k := it.dot_position.2 + 1
    if k < comp.length then ((it.dot_position.1, k), false)
    else if k == comp.length then ((it.dot_position.1, k), true)
    else ((it.dot_position.1 + 1, 0), false)

/-- Embedding of `ActiveItem.get_all_completed_components_and_values`. -/
def get_all_completed_components_and_values (it : ActiveItem) :
    List (String × List String) :=
  (List.range it.dot_position.1).map (fun idx =>
    let j := it.range_order.getD idx 0
    (it.symbol ++ "(" ++ natToStr j ++ ")", it.vector_binding.getD j []))

/-- Embedding of `ActiveItem.create_complete_item` (the fresh id is threaded
explicitly). -/
def create_complete_item (it : ActiveItem) (nid : Nat) : ActiveItem :=
  { symbol := it.symbol,
    dot_position := (get_next_dot_position_and_check_if_complete it true).1,
    found_start := it.found_start, found_end := it.found_end,
    range_order := it.range_order, token_index := it.token_index,
    action_type := "complete", rule := it.rule,
    found_sequence := it.found_sequence, antecedent_ids := [it.id],
    scanned := false, combined := false, ignored := false, id := nid,
    vector_binding := it.vector_binding }

/-- Embedding of `MCFGParser.get_new_vector_binding`: copy the binding and
overwrite the slot after the dot. -/
def get_new_vector_binding (it : ActiveItem) (v : String) : List (List String) :=
  let ci := it.range_order.getD it.dot_position.1 0
  it.vector_binding.set ci ((it.vector_binding.getD ci []).set it.dot_position.2 v)

/-- Allocate the next item id (`ActiveItem.items_counter`). -/
def freshId (s : ParserState) : Nat × ParserState :=
  (s.counter + 1, { s with counter := s.counter + 1 })

/-! ## The three inference rules (`MCFGParser.do_predict`, `do_scan`,
`do_combine`) -/

/-- Positions of the rules with a given left-hand symbol
(`grammar.vars_to_rules[symbol]`, which lists rules in order). -/
def ruleIdxsFor (rules : List MCFGRule) (sym : String) : List Nat :=
  (List.range rules.length).filter (fun i => (rules.getD i default).symbol == sym)

/-- The binding and the list of component orders a prediction instantiates
for a rule (the two branches at the top of `do_predict`). -/
def predict_binding_orders (terminals : List String) (rule : MCFGRule) :
    List (List String) × List (List Nat) :=
  if rule.is_terminating_rule then
    (match rule.rhs with
     | .term t => ([[t]], [[0]])
     | .fn _ => ([[""]], [[0]]))
  else
    (match rule.rhs with
     | .fn f => (call_func terminals f rule.vars, lexPerms f.result_vector.length)
     | .term t => ([[t]], [[0]]))

/-- The predict item for one component order. -/
def predict_item (sym : String) (token_index : Nat) (rule : MCFGRule)
    (vb : List (List String)) (ord : List Nat) (nid : Nat) : ActiveItem :=
  { symbol := sym, dot_position := (0, 0), found_start := token_index,
    found_end := token_index, range_order := ord, token_index := token_index,
    action_type := "predict", rule := { rule with used := true },
    found_sequence := [], antecedent_ids := [], scanned := false,
    combined := false, ignored := false, id := nid, vector_binding := vb }

/-- The item-emission step of `do_predict` for one component order. -/
def predict_order_step (sym : String) (token_index : Nat) (rule : MCFGRule)
    (vb : List (List String)) (acc : List ActiveItem × ParserState)
    (ord : List Nat) : List ActiveItem × ParserState :=
  let fr := freshId acc.2
  (acc.1 ++ [predict_item sym token_index rule vb ord fr.1], fr.2)

/-- The body of `do_predict` for one rule of the current symbol. -/
def predict_rule (token : String) (token_index : Nat) (sym : String)
    (acc : List ActiveItem × ParserState) (i : Nat) : List ActiveItem × ParserState :=
  match acc.2.rules.get? i with
  | none => acc
  | some rule =>
    if rule.used then acc
    else
      let vbOrders := predict_binding_orders acc.2.terminals rule
      let vb := vbOrders.1
      let first := (vb.getD 0 []).getD 0 ""
      if acc.2.terminals.contains first && first != token then acc
      else
        let s := { acc.2 with rules := acc.2.rules.set i { rule with used := true } }
        let s := add_item_to_prediction_strategy s (dedupStrs rule.vars)
        vbOrders.2.foldl (predict_order_step sym token_index rule vb) (acc.1, s)

/-- The body of `do_predict` for one symbol of the prediction strategy. -/
def predict_symbol (token : String) (token_index : Nat)
    (acc : List ActiveItem × ParserState) (sym : String) :
    List ActiveItem × ParserState :=
  (ruleIdxsFor acc.2.rules sym).foldl (predict_rule token token_index sym) acc

/-- Embedding of `MCFGParser.do_predict`.  Returns the created items and the
new state (rule `used` flags, prediction frontier and counter updated). -/
def do_predict (s0 : ParserState) (token : String) (token_index : Nat)
    (strategy : List String) : List ActiveItem × ParserState :=
  strategy.foldl (predict_symbol token token_index) ([], s0)

/-- Embedding of `MCFGParser.do_scan`, acting on the chart item with the
given id (the in-place `mark_scanned` becomes an `all_items` update). -/
def do_scan (s0 : ParserState) (activeId : Nat) (token : String)
    (token_index : Nat) : (List ActiveItem × List ActiveItem) × ParserState :=
  match lookupItem s0 activeId with
  | none => (([], []), s0)
  | some it =>
    if it.token_index > token_index then (([], []), s0)
    else if it.scanned then (([], []), s0)
    else
      match get_symbol_after_dot it with
      | none => (([], []), s0)
      | some sym =>
        if sym == token then
          let ndc := get_next_dot_position_and_check_if_complete it false
          let fr := freshId s0
          let scannedItem : ActiveItem :=
            { symbol := it.symbol, dot_position := ndc.1,
              found_start := it.found_start, found_end := it.found_end + 1,
              range_order := it.range_order, token_index := token_index,
              action_type := "scan", rule := it.rule,
              found_sequence := it.found_sequence ++ [sym],
              antecedent_ids := [activeId], scanned := false, combined := false,
              ignored := false, id := fr.1, vector_binding := it.vector_binding }
          let s := { fr.2 with
            all_items := aSet fr.2.all_items activeId { it with scanned := true } }
          if ndc.2 then
            let scannedItem := { scannedItem with ignored := true }
            let fr2 := freshId s
            (([scannedItem], [create_complete_item scannedItem fr2.1]), fr2.2)
          else (([scannedItem], []), s)
        else (([], []), s0)

/-- The body of `do_combine` for one candidate active item.  The
consistency-check branch of the source never emits an item (the emission sits
in the `else` branch and the mismatch `continue` only advances the inner
component loop), and the embedding reproduces that behaviour. -/
def combine_candidate (completedId : Nat) (token_index : Nat) (compsLen : Nat)
    (value : String) (acc : (List ActiveItem × List ActiveItem) × ParserState)
    (cid : Nat) : (List ActiveItem × List ActiveItem) × ParserState :=
  match lookupItem acc.2 cid with
  | none => acc
  | some c =>
    if c.token_index > token_index then acc
    else if couple_combined acc.2 (cid, completedId) then acc
    else
      let s := { acc.2 with
        combined_couples := acc.2.combined_couples ++ [(cid, completedId)] }
      let itemComps := get_all_completed_components_and_values c
      if !itemComps.isEmpty && compsLen > 1 then
        (acc.1, s)
      else
        let nvb := get_new_vector_binding c value
        let ndc := get_next_dot_position_and_check_if_complete c false
        let fr := freshId s
        let combinedItem : ActiveItem :=
          { symbol := c.symbol, dot_position := ndc.1,
            found_start := c.found_start, found_end := c.found_end + 1,
            range_order := c.range_order, token_index := token_index,
            action_type := "combine", rule := c.rule,
            found_sequence := c.found_sequence ++ [value],
            antecedent_ids := [cid, completedId], scanned := false,
            combined := false, ignored := false, id := fr.1,
            vector_binding := nvb }
        if ndc.2 then
          let combinedItem := { combinedItem with ignored := true }
          let fr2 := freshId fr.2
          ((acc.1.1 ++ [combinedItem],
            acc.1.2 ++ [create_complete_item combinedItem fr2.1]), fr2.2)
        else ((acc.1.1 ++ [combinedItem], acc.1.2), fr.2)

/-- The body of `do_combine` for one completed component of the donor. -/
def combine_key (completedId : Nat) (token_index : Nat) (compsLen : Nat)
    (activeSnap : List Nat)
    (acc : (List ActiveItem × List ActiveItem) × ParserState)
    (kv : String × List String) :
    (List ActiveItem × List ActiveItem) × ParserState :=
  let value := joinSpace kv.2
  let candidates := activeSnap.filter (fun cid =>
    match lookupItem acc.2 cid with
    | some c => get_symbol_after_dot c == some kv.1
    | none => false)
  candidates.foldl (combine_candidate completedId token_index compsLen value) acc

/-- Embedding of `MCFGParser.do_combine`, acting on the donor with the given
id against a snapshot of active-item ids. -/
def do_combine (s0 : ParserState) (completedId : Nat) (token_index : Nat)
    (activeSnap : List Nat) : (List ActiveItem × List ActiveItem) × ParserState :=
  match lookupItem s0 completedId with
  | none => (([], []), s0)
  | some donor =>
    let comps := get_all_completed_components_and_values donor
    comps.foldl (combine_key completedId token_index comps.length activeSnap)
      (([], []), s0)

/-! ## The engine (`run_incremental_parse_for_max_position_i` and `parse`) -/

/-- The scan part of `run_action_and_add_items_to_chart`. -/
def runScanAdd (s : ParserState) (activeId : Nat) (token : String)
    (token_index : Nat) : Bool × ParserState :=
  let r := do_scan s activeId token token_index
  let a1 := add_active_items_to_chart r.2 r.1.1
  let a2 := add_active_items_to_chart a1.2 r.1.2
  let a3 := add_completed_items_to_chart a2.2 r.1.2
  (a1.1 || a2.1 || a3.1, a3.2)

/-- The combine part of `run_action_and_add_items_to_chart`. -/
def runCombineAdd (s : ParserState) (completedId : Nat) (token_index : Nat)
    (activeSnap : List Nat) : Bool × ParserState :=
  let r := do_combine s completedId token_index activeSnap
  let a1 := add_active_items_to_chart r.2 r.1.1
  let a2 := add_active_items_to_chart a1.2 r.1.2
  let a3 := add_completed_items_to_chart a2.2 r.1.2
  (a1.1 || a2.1 || a3.1, a3.2)

/-- The predict part of `run_action_and_add_items_to_chart`. -/
def runPredictAdd (s : ParserState) (token : String) (token_index : Nat)
    (strategy : List String) : Bool × ParserState :=
  let r := do_predict s token token_index strategy
  add_active_items_to_chart r.2 r.1

/-- One combine attempt inside a sweep, accumulating the progress flag. -/
def combine_sweep_step (index : Nat) (activeSnap : List Nat)
    (acc : Bool × ParserState) (did : Nat) : Bool × ParserState :=
  let g := runCombineAdd acc.2 did index activeSnap
  (acc.1 || g.1, g.2)

/-- One scan attempt inside a sweep, accumulating the progress flag. -/
def scan_sweep_step (token : String) (index : Nat)
    (acc : Bool × ParserState) (aid : Nat) : Bool × ParserState :=
  let g := runScanAdd acc.2 aid token index
  (acc.1 || g.1, g.2)

/-- One iteration of the `while not_finished` loop: predict with the current
frontier, combine every partially-complete donor against a snapshot of the
active items, then scan a fresh snapshot of the active items. -/
def sweep (s : ParserState) (token : String) (index : Nat) : Bool × ParserState :=
  let p := runPredictAdd s token index s.prediction_strategy
  let activeSnap := nonIgnoredIds p.2 .active
  let donors := nonIgnoredIds p.2 .completedComp
  let cf := donors.foldl (combine_sweep_step index activeSnap) (false, p.2)
  let scanSnap := nonIgnoredIds cf.2 .active
  let sf := scanSnap.foldl (scan_sweep_step token index) (false, cf.2)
  (p.1 || cf.1 || sf.1, sf.2)

/-- The fueled `while not_finished` loop. -/
def sweepLoop : Nat → ParserState → String → Nat → ParserState
  | 0, s, _, _ => s
  | fuel + 1, s, token, index =>
    let r := sweep s token index
    if r.1 then sweepLoop fuel r.2 token index else r.2

/-- Embedding of `run_incremental_parse_for_max_position_i`. -/
def run_incremental (s : ParserState) (token : String) (index : Nat)
    (fuel : Nat) : ParserState :=
  let s :=
    if index == 0 then (runPredictAdd s token 0 [s.start_symbol]).2
    else s
  sweepLoop fuel s token index

/-- The goal search run by `parse` after each token position: the first
non-ignored completed item on the start symbol whose space-joined
`found_sequence` equals the input text. -/
def find_goal (s : ParserState) : Option ActiveItem :=
  (get_items_list s .completed).find? (fun it =>
    it.symbol == s.start_symbol &&
      joinSpace it.found_sequence == s.text)

/-- One stage of the token loop: run the incremental parser for this token
position, then overwrite the `successful_parsing_item` accumulator if a
goal item is found at this stage (kept otherwise). -/
def parse_stage_step (fuel : Nat) (acc : ParserState × Option ActiveItem)
    (stage : Nat × String) : ParserState × Option ActiveItem :=
  let s := run_incremental acc.1 stage.2 stage.1 fuel
  let goal :=
    match find_goal s with
    | some g => some g
    | none => acc.2
  (s, goal)

/-- The token loop of `parse`, also threading the
`successful_parsing_item` variable (overwritten whenever a stage finds a
goal, kept otherwise). -/
def parseLoop (s : ParserState) (stages : List (Nat × String)) (fuel : Nat) :
    ParserState × Option ActiveItem :=
  stages.foldl (parse_stage_step fuel) (s, none)

/-- The loop body of `MCFGParserChart.get_parsing_table`: reverse BFS over
antecedent ids, prepending unseen items (seen-test by structural equality). -/
def gptAux (allItems : List (Nat × ActiveItem)) :
    Nat → List ActiveItem → List Nat → List ActiveItem
  | 0, table, _ => table
  | _ + 1, table, [] => table
  | fuel + 1, table, a :: rest =>
    let it := (aLookup allItems a).getD default
    if table.any (itemBeq it) then gptAux allItems fuel table rest
    else gptAux allItems fuel (it :: table) (rest ++ it.antecedent_ids)

/-- Embedding of `MCFGParserChart.get_parsing_table`. -/
def get_parsing_table (allItems : List (Nat × ActiveItem)) (goalId : Nat)
    (fuel : Nat) : List ActiveItem :=
  let it := (aLookup allItems goalId).getD default
  gptAux allItems fuel [it] it.antecedent_ids

/-- Embedding of `MCFGParser.parse`: run the token loop and, if a goal item
was recorded, extract its parsing table. -/
def parse (g : MCFG) (text : String) (fuel : Nat) : Option (List ActiveItem) :=
  let s0 := initState g text
  let r := parseLoop s0 (splitOnSpace text).enum fuel
  match r.2 with
  | some it => some (get_parsing_table r.1.all_items it.id fuel)
  | none => none

/-- The final state of the token loop (exposed for stating chart
invariants). -/
def parseFinalState (g : MCFG) (text : String) (fuel : Nat) : ParserState :=
  (parseLoop (initState g text) (splitOnSpace text).enum fuel).1

/-! ## Claim C10: totality of `get_symbol_after_dot` -/

/-- A dot position that indexes past the end of the range order or of the
binding component it schedules (the situation the `try/except` in
`get_symbol_after_dot` guards against). -/
def dotOutOfRange (it : ActiveItem) : Bool :=
  match it.range_order.get? it.dot_position.1 with
  | none => true
  | some c =>
    match it.vector_binding.get? c with
    | none => true
    | some comp => decide (comp.length ≤ it.dot_position.2)

theorem lookupItem_congr {s1 s2 : ParserState}
    (h : s1.all_items = s2.all_items) (k : Nat) :
    lookupItem s1 k = lookupItem s2 k := by
  unfold lookupItem
  rw [h]

theorem gsad_none_of_outOfRange (it : ActiveItem)
    (h : dotOutOfRange it = true) : get_symbol_after_dot it = none := by
  unfold dotOutOfRange at h
  unfold get_symbol_after_dot
  cases hro : it.range_order.get? it.dot_position.1 with
  | none => rfl
  | some c =>
    simp only [hro] at h ⊢
    cases hvb : it.vector_binding.get? c with
    | none => rfl
    | some comp =>
      simp only [hvb, decide_eq_true_eq] at h ⊢
      exact List.get?_eq_none.mpr h

theorem do_scan_nil_of_outOfRange (s : ParserState) (id : Nat)
    (it : ActiveItem) (token : String) (idx : Nat)
    (hl : lookupItem s id = some it) (h : dotOutOfRange it = true) :
    do_scan s id token idx = (([], []), s) := by
  unfold do_scan
  simp only [hl, gsad_none_of_outOfRange it h]
  split
  · rfl
  · split
    · rfl
    · rfl

theorem combine_candidate_all_items (a b n : Nat) (v : String)
    (acc : (List ActiveItem × List ActiveItem) × ParserState) (cid : Nat) :
    ((combine_candidate a b n v acc cid).2).all_items = acc.2.all_items := by
  obtain ⟨⟨cl, dl⟩, s⟩ := acc
  unfold combine_candidate
  cases lookupItem s cid with
  | none => rfl
  | some c =>
    simp only []
    split
    · rfl
    · split
      · rfl
      · split
        · rfl
        · split
          · rfl
          · rfl

theorem candidates_fold_all_items (a b n : Nat) (v : String) :
    ∀ (cands : List Nat) (acc : (List ActiveItem × List ActiveItem) × ParserState),
    ((cands.foldl (combine_candidate a b n v) acc).2).all_items = acc.2.all_items := by
  intro cands
  induction cands with
  | nil => intro acc; rfl
  | cons x xs ih =>
    intro acc
    rw [List.foldl_cons, ih (combine_candidate a b n v acc x),
        combine_candidate_all_items]

theorem combine_key_all_items (a b n : Nat) (snap : List Nat)
    (acc : (List ActiveItem × List ActiveItem) × ParserState)
    (kv : String × List String) :
    ((combine_key a b n snap acc kv).2).all_items = acc.2.all_items := by
  unfold combine_key
  rw [candidates_fold_all_items]

theorem do_combine_skips_outOfRange (s : ParserState) (did idx : Nat)
    (l1 l2 : List Nat) (bid : Nat) (it : ActiveItem)
    (hl : lookupItem s bid = some it) (h : dotOutOfRange it = true) :
    do_combine s did idx (l1 ++ bid :: l2) = do_combine s did idx (l1 ++ l2) := by
  unfold do_combine
  cases hd : lookupItem s did with
  | none => rfl
  | some donor =>
    simp only []
    generalize hn : (get_all_completed_components_and_values donor).length = n
    generalize (get_all_completed_components_and_values donor) = comps
    have main : ∀ (comps : List (String × List String))
        (acc : (List ActiveItem × List ActiveItem) × ParserState),
        acc.2.all_items = s.all_items →
        comps.foldl (combine_key did idx n (l1 ++ bid :: l2)) acc =
        comps.foldl (combine_key did idx n (l1 ++ l2)) acc := by
      intro comps
      induction comps with
      | nil => intro acc hacc; rfl
      | cons kv cs ih =>
        intro acc hacc
        rw [List.foldl_cons, List.foldl_cons]
        have hkeyeq : combine_key did idx n (l1 ++ bid :: l2) acc kv =
            combine_key did idx n (l1 ++ l2) acc kv := by
          unfold combine_key
          have hfil : (l1 ++ bid :: l2).filter (fun cid =>
              match lookupItem acc.2 cid with
              | some c => get_symbol_after_dot c == some kv.1
              | none => false) =
            (l1 ++ l2).filter (fun cid =>
              match lookupItem acc.2 cid with
              | some c => get_symbol_after_dot c == some kv.1
              | none => false) := by
            rw [List.filter_append, List.filter_append, List.filter_cons]
            have hlb : lookupItem acc.2 bid = some it := by
              rw [lookupItem_congr hacc, hl]
            simp only [hlb, gsad_none_of_outOfRange it h]
            rfl
          rw [hfil]
        rw [hkeyeq]
        exact ih _ (by rw [combine_key_all_items]; exact hacc)
    exact main comps (([], []), s) rfl

/-- Claim C10: `get_symbol_after_dot` is total: on an item whose dot indexes
past the end of its range order or of the scheduled binding component (in
particular on every fully complete item) it returns `none` instead of
failing; consequently `do_scan` produces no items and changes nothing on such
an item, and `do_combine` never uses such an item as a candidate (removing it
from the active snapshot does not change the result), so neither raises. -/
theorem c10_symbol_after_dot_total :
    (∀ it : ActiveItem, dotOutOfRange it = true → get_symbol_after_dot it = none) ∧
    (∀ it : ActiveItem, it.range_order.length ≤ it.dot_position.1 →
      dotOutOfRange it = true) ∧
    (∀ (s : ParserState) (id : Nat) (it : ActiveItem) (token : String) (idx : Nat),
      lookupItem s id = some it → dotOutOfRange it = true →
      do_scan s id token idx = (([], []), s)) ∧
    (∀ (s : ParserState) (did idx : Nat) (l1 l2 : List Nat) (bid : Nat)
      (it : ActiveItem), lookupItem s bid = some it → dotOutOfRange it = true →
      do_combine s did idx (l1 ++ bid :: l2) = do_combine s did idx (l1 ++ l2)) := by
  refine ⟨gsad_none_of_outOfRange, ?_, do_scan_nil_of_outOfRange,
    do_combine_skips_outOfRange⟩
  intro it h
  unfold dotOutOfRange
  rw [List.get?_eq_none.mpr h]

/-- A fully complete item (dot past the last scheduled component), used to
witness C10 at a concrete input. -/
def c10item : ActiveItem :=
  { symbol := "A", dot_position := (1, 0), found_start := 0, found_end := 1,
    range_order := [0], token_index := 0, action_type := "complete",
    rule := default, found_sequence := ["a"], antecedent_ids := [],
    scanned := false, combined := false, ignored := false, id := 1,
    vector_binding := [["a"]] }

/-- A state containing only `c10item`. -/
def c10state : ParserState :=
  { start_symbol := "S", terminals := ["a"], rules := [], tokens := ["a"],
    text := "a", all_items := [(1, c10item)], active_ids := [1],
    completed_comp_ids := [], completed_ids := [], prediction_strategy := [],
    combined_couples := [], counter := 1 }

theorem c10_symbol_after_dot_total_witness :
    get_symbol_after_dot c10item = none ∧
    dotOutOfRange c10item = true ∧
    do_scan c10state 1 "a" 0 = (([], []), c10state) ∧
    do_combine c10state 1 0 ([] ++ 1 :: []) = do_combine c10state 1 0 ([] ++ []) := by
  refine ⟨?_, ?_, ?_, ?_⟩
  · exact c10_symbol_after_dot_total.1 c10item (by decide)
  · exact c10_symbol_after_dot_total.2.1 c10item (by decide)
  · exact c10_symbol_after_dot_total.2.2.1 c10state 1 c10item "a" 0 (by decide) (by decide)
  · exact c10_symbol_after_dot_total.2.2.2 c10state 1 0 [] [] 1 c10item (by decide) (by decide)

/-! ## Claim C2: the consistency check of `do_combine`

The source places the whole emission code in the `else` branch of the
consistency check, so whenever the check applies (the candidate has completed
components and the donor has more than one) no combined item is emitted, even
when every shared key matches.  The following concrete donor/candidate pair
exercises exactly that: the candidate `c2active` has a completed component,
the donor `c2donor` has two, no key is shared (so the claim requires an
emission), yet `do_combine` emits nothing while memoizing the pair (proving
the candidate was reached rather than skipped). -/

/-- A candidate active item with one completed component (`X(0)`) whose next
atom after the dot is the donor component `A(0)`. -/
def c2active : ActiveItem :=
  { symbol := "X", dot_position := (1, 0), found_start := 0, found_end := 1,
    range_order := [0, 1], token_index := 0, action_type := "predict",
    rule := default, found_sequence := ["x"], antecedent_ids := [],
    scanned := false, combined := false, ignored := false, id := 1,
    vector_binding := [["x"], ["A(0)"]] }

/-- A fully complete donor with two completed components `A(0)` and `A(1)`. -/
def c2donor : ActiveItem :=
  { symbol := "A", dot_position := (2, 0), found_start := 0, found_end := 2,
    range_order := [0, 1], token_index := 0, action_type := "complete",
    rule := default, found_sequence := ["a", "b"], antecedent_ids := [],
    scanned := false, combined := false, ignored := false, id := 2,
    vector_binding := [["a"], ["b"]] }

/-- Chart state holding the candidate and the donor. -/
def c2state : ParserState :=
  { start_symbol := "S", terminals := ["a", "b", "x"], rules := [],
    tokens := ["x", "a", "b"], text := "x a b",
    all_items := [(1, c2active), (2, c2donor)], active_ids := [1],
    completed_comp_ids := [2], completed_ids := [], prediction_strategy := [],
    combined_couples := [], counter := 2 }

/-- Claim C2 (evaluation at the failing input): the candidate is reached —
the pair `(1, 2)` is memoized — the consistency check applies with no shared
key mismatching, and yet `do_combine` emits no combined item, contradicting
the claim that an item with antecedents `[C.id, D.id]` is emitted. -/
theorem c2_consistency_check_never_emits :
    (do_combine c2state 2 5 [1]).1 = ([], []) ∧
    (do_combine c2state 2 5 [1]).2.combined_couples = [(1, 2)] ∧
    get_all_completed_components_and_values c2active = [("X(0)", ["x"])] ∧
    get_all_completed_components_and_values c2donor =
      [("A(0)", ["a"]), ("A(1)", ["b"])] ∧
    get_symbol_after_dot c2active = some "A(0)" := by
  refine ⟨by decide, by decide, by decide, by decide, by decide⟩

/-! ## Claim C3: the dot advance of `do_scan`

`get_symbol_after_dot` reads the atom through the range order
(`binding[range_order[c]][k]`), but
`get_next_dot_position_and_check_if_complete` measures completion against
`binding[c]` — the unpermuted component.  With `range_order = [1, 0]` and
components of different lengths the two disagree: below, the scan of token
`b` matches `binding[1][0]` inside the two-atom component `[b, c]`, yet the
advance declares the component complete because `binding[0]` has length one,
emitting a completed-form item.  The claim (following the spec) requires
`complete` exactly when `k+1 = len(binding[range_order[c]])`, i.e. not here.
Also visible below: at completion the scanned item keeps dot `(c, k+1)` and
is flagged ignored, while the separately emitted completed form holds
`(c+1, 0)`. -/

/-- An item scanning its scheduled component `binding[1] = [b, c]` first. -/
def c3item : ActiveItem :=
  { symbol := "S", dot_position := (0, 0), found_start := 0, found_end := 0,
    range_order := [1, 0], token_index := 0, action_type := "predict",
    rule := default, found_sequence := [], antecedent_ids := [],
    scanned := false, combined := false, ignored := false, id := 1,
    vector_binding := [["a"], ["b", "c"]] }

/-- Chart state holding `c3item`. -/
def c3state : ParserState :=
  { start_symbol := "S", terminals := ["a", "b", "c"], rules := [],
    tokens := ["b", "c", "a"], text := "b c a",
    all_items := [(1, c3item)], active_ids := [1],
    completed_comp_ids := [], completed_ids := [], prediction_strategy := [],
    combined_couples := [], counter := 1 }

/-- Claim C3 (evaluation at the failing input): scanning token `b` (the atom
after the dot through the range order), the advance reports `complete = true`
at dot `(0, 1)` although the scheduled component `binding[1] = [b, c]` has
length 2; consequently `do_scan` emits an ignored scanned item at `(0, 1)`
and a completed-form item at `(1, 0)`, where the claim requires an
un-ignored scanned item at `(0, 1)` with the component not complete and no
completed item. -/
theorem c3_scan_completion_uses_wrong_component :
    get_symbol_after_dot c3item = some "b" ∧
    get_next_dot_position_and_check_if_complete c3item false = ((0, 1), true) ∧
    ((do_scan c3state 1 "b" 0).1.1.map (fun it => (it.dot_position, it.ignored))) =
      [((0, 1), true)] ∧
    ((do_scan c3state 1 "b" 0).1.2.map (fun it => (it.dot_position, it.ignored))) =
      [((1, 0), false)] := by
  refine ⟨by decide, by decide, by decide, by decide⟩

/-! ## Claim C7: duplicate detection

Item equality (`itemBeq`) compares the mutable `scanned` flag, and
`mark_scanned` updates items in place after insertion, so two non-ignored
structurally equal items can coexist in a role: a twin inserted while the
original was already scanned passes the duplicate check, and becomes equal to
the original once it is scanned itself.  The grammar below realises this on
input `"a"`.  The insertion-time half of the claim does hold: inserting an
item preserves the no-duplicates invariant, and the incoming item stays
resolvable by id. -/

theorem aLookup_aSet_self (l : List (Nat × ActiveItem)) (k : Nat) (v : ActiveItem) :
    aLookup (aSet l k v) k = some v := by
  induction l with
  | nil => simp [aSet, aLookup]
  | cons p ps ih =>
    by_cases h : p.1 == k
    · simp [aSet, h, aLookup]
    · simp only [aSet, h, Bool.false_eq_true, if_false]
      unfold aLookup at ih ⊢
      rw [List.find?_cons_of_neg _ (by simpa using h)]
      exact ih

theorem aLookup_aSet_ne (l : List (Nat × ActiveItem)) (k j : Nat) (v : ActiveItem)
    (h : j ≠ k) : aLookup (aSet l k v) j = aLookup l j := by
  induction l with
  | nil =>
    show aLookup [(k, v)] j = aLookup [] j
    unfold aLookup
    rw [List.find?_cons_of_neg _ (by simp [Ne.symm h])]
  | cons p ps ih =>
    by_cases hp : p.1 == k
    · have hpk : p.1 = k := by simpa using hp
      simp only [aSet, hp, if_true]
      unfold aLookup
      rw [List.find?_cons_of_neg _ (by simp [h, Ne.symm h]),
          List.find?_cons_of_neg _ (by simp [hpk, h, Ne.symm h])]
    · simp only [aSet, hp, Bool.false_eq_true, if_false]
      unfold aLookup at ih ⊢
      by_cases hj : p.1 == j
      · rw [List.find?_cons_of_pos _ (by simpa using hj),
            List.find?_cons_of_pos _ (by simpa using hj)]
      · rw [List.find?_cons_of_neg _ (by simpa using hj),
            List.find?_cons_of_neg _ (by simpa using hj)]
        exact ih

theorem aSet_aSet (l : List (Nat × ActiveItem)) (k : Nat) (v w : ActiveItem) :
    aSet (aSet l k v) k w = aSet l k w := by
  induction l with
  | nil => simp [aSet]
  | cons p ps ih =>
    by_cases h : p.1 == k
    · simp [aSet, h]
    · simp [aSet, h, ih]

theorem rhsBeq_refl (r : RuleRHS) : rhsBeq r r = true := by
  cases r <;> simp [rhsBeq]

theorem ruleBeq_refl (r : MCFGRule) : ruleBeq r r = true := by
  simp [ruleBeq, rhsBeq_refl]

theorem itemBeq_refl (a : ActiveItem) : itemBeq a a = true := by
  simp [itemBeq, ruleBeq_refl]

/-- Sublist relation between two `filterMap`s whose functions agree except
that the second may drop entries. -/
theorem filterMap_sublist_of_pointwise {α β : Type _} (g1 g2 : α → Option β)
    (l : List α) (h : ∀ a ∈ l, g2 a = g1 a ∨ g2 a = none) :
    (l.filterMap g2).Sublist (l.filterMap g1) := by
  induction l with
  | nil => simp
  | cons a l ih =>
    have ha := h a (by simp)
    have hl : ∀ x ∈ l, g2 x = g1 x ∨ g2 x = none := fun x hx => h x (by simp [hx])
    rw [List.filterMap_cons, List.filterMap_cons]
    rcases ha with ha | ha
    · rw [ha]
      cases g1 a with
      | none => exact ih hl
      | some b => exact (ih hl).cons₂ b
    · rw [ha]
      cases g1 a with
      | none => exact ih hl
      | some b => exact (ih hl).cons b

/-- The no-structural-duplicates invariant of a chart role, over the
non-ignored stored items. -/
def roleNoDup (s : ParserState) (role : Role) : Prop :=
  (get_items_list s role).Pairwise (fun a b => itemBeq a b = false)

theorem roleIds_all_items_update (s : ParserState) (role : Role) (l) :
    roleIds { s with all_items := l } role = roleIds s role := by
  cases role <;> rfl

/-- The Bool duplicate test run by `add_items_to_chart` (over the stored
values of a role). -/
def roleHasEqual (s : ParserState) (role : Role) (itv : ActiveItem) : Bool :=
  (roleIds s role).any (fun j =>
    match lookupItem s j with
    | some x => itemBeq x itv
    | none => false)

theorem lookupItem_update_ne (s : ParserState) (k j : Nat) (v : ActiveItem)
    (h : j ≠ k) :
    lookupItem { s with all_items := aSet s.all_items k v } j = lookupItem s j := by
  unfold lookupItem
  exact aLookup_aSet_ne _ _ _ _ h

theorem roleIds_setRoleIds (s : ParserState) (role : Role) (l : List Nat) :
    roleIds (setRoleIds s role l) role = l := by
  cases role <;> rfl

theorem setRoleIds_all_items (s : ParserState) (role : Role) (l : List Nat) :
    (setRoleIds s role l).all_items = s.all_items := by
  cases role <;> rfl

theorem addOneItemToChart_preserves_roleNoDup (s : ParserState) (role : Role)
    (it0 : ActiveItem) (h : roleNoDup s role) :
    roleNoDup (addOneItemToChart s role it0) role := by
  unfold addOneItemToChart
  set itv := (lookupItem s it0.id).getD it0 with hitv
  set s1 : ParserState := { s with all_items := aSet s.all_items itv.id itv } with hs1
  set dup := (roleIds s1 role).any (fun j =>
    match lookupItem s1 j with
    | some x => itemBeq x itv
    | none => false) with hdup
  set itf := if dup then { itv with ignored := true } else itv with hitf
  set s2 : ParserState := { s1 with all_items := aSet s1.all_items itv.id itf } with hs2
  have hids1 : roleIds s1 role = roleIds s role := roleIds_all_items_update s role _
  have hids2 : roleIds s2 role = roleIds s role := by
    rw [hs2, roleIds_all_items_update, hids1]
  have hlook1 : ∀ j, j ≠ itv.id → lookupItem s1 j = lookupItem s j := by
    intro j hj
    rw [hs1]
    show aLookup (aSet s.all_items itv.id itv) j = lookupItem s j
    rw [aLookup_aSet_ne _ _ _ _ hj]
    rfl
  have hlook1self : lookupItem s1 itv.id = some itv := by
    rw [hs1]
    show aLookup (aSet s.all_items itv.id itv) itv.id = some itv
    exact aLookup_aSet_self _ _ _
  have hlook2 : ∀ j, j ≠ itv.id → lookupItem s2 j = lookupItem s j := by
    intro j hj
    rw [hs2]
    show aLookup (aSet s1.all_items itv.id itf) j = lookupItem s j
    rw [aLookup_aSet_ne _ _ _ _ hj]
    exact hlook1 j hj
  have hlook2self : lookupItem s2 itv.id = some itf := by
    rw [hs2]
    show aLookup (aSet s1.all_items itv.id itf) itv.id = some itf
    exact aLookup_aSet_self _ _ _
  -- if the incoming id is already stored under the role, the duplicate test
  -- sees the item itself and fires
  have hdup_of_mem : itv.id ∈ roleIds s role → dup = true := by
    intro hm
    rw [hdup, List.any_eq_true]
    refine ⟨itv.id, by rwa [hids1], ?_⟩
    rw [hlook1self]
    exact itemBeq_refl itv
  -- pointwise comparison of the role's stored views before and after
  have hfun : ∀ j ∈ roleIds s role,
      (match lookupItem s2 j with
       | some it => if it.ignored then none else some it
       | none => none) =
      (match lookupItem s j with
       | some it => if it.ignored then none else some it
       | none => none) ∨
      (match lookupItem s2 j with
       | some it => if it.ignored then none else some it
       | none => none) = none := by
    intro j hm
    by_cases hj : j = itv.id
    · subst hj
      have hd := hdup_of_mem hm
      rw [hlook2self, hitf, if_pos hd]
      right
      rfl
    · left
      rw [hlook2 j hj]
  have hsub2 : (get_items_list s2 role).Sublist (get_items_list s role) := by
    unfold get_items_list
    rw [hids2]
    exact filterMap_sublist_of_pointwise _ _ _ hfun
  by_cases hc : (roleIds s2 role).contains itv.id
  · rw [if_pos hc]
    exact (List.Pairwise.sublist hsub2 h)
  · rw [if_neg hc]
    have hnotmem : itv.id ∉ roleIds s role := by
      rw [hids2] at hc
      intro hmem
      exact hc (List.elem_eq_true_of_mem hmem)
    unfold roleNoDup
    unfold get_items_list
    have hall3 : (setRoleIds s2 role (roleIds s2 role ++ [itv.id])).all_items =
        s2.all_items := setRoleIds_all_items _ _ _
    rw [roleIds_setRoleIds]
    have hlookeq : ∀ j, lookupItem (setRoleIds s2 role (roleIds s2 role ++ [itv.id])) j =
        lookupItem s2 j := by
      intro j
      unfold lookupItem
      rw [hall3]
    have hgeq : (fun j => match lookupItem
          (setRoleIds s2 role (roleIds s2 role ++ [itv.id])) j with
        | some it => if it.ignored then none else some it
        | none => none) =
        (fun j => match lookupItem s2 j with
        | some it => if it.ignored then none else some it
        | none => none) := by
      funext j
      rw [hlookeq]
    rw [hgeq, List.filterMap_append, hids2]
    -- split on whether the freshly stored copy is visible
    rw [List.pairwise_append]
    refine ⟨?_, ?_, ?_⟩
    · have : ((roleIds s role).filterMap (fun j => match lookupItem s2 j with
        | some it => if it.ignored then none else some it
        | none => none)).Sublist (get_items_list s role) := by
        unfold get_items_list
        exact filterMap_sublist_of_pointwise _ _ _ hfun
      exact List.Pairwise.sublist this h
    · simp only [List.filterMap_cons, List.filterMap_nil]
      rw [hlook2self]
      by_cases hig : itf.ignored
      · simp [hig]
      · simp only [hig, Bool.false_eq_true, if_false]
        exact List.pairwise_singleton _ _
    · intro a ha b hb
      simp only [List.filterMap_cons, List.filterMap_nil, hlook2self] at hb
      by_cases hig : itf.ignored
      · simp [hig] at hb
      · simp only [hig, Bool.false_eq_true, if_false, List.mem_singleton] at hb
        subst hb
        -- itf is not flagged, so no duplicate was found
        have hdupf : dup = false := by
          by_contra hd
          have hd' : dup = true := by
            cases hdup2 : dup
            · exact absurd hdup2 hd
            · rfl
          rw [hitf, if_pos hd'] at hig
          simp at hig
        have hitfv : itf = itv := by rw [hitf, hdupf]; rfl
        rw [hitfv]
        obtain ⟨j, hjmem, hja⟩ := List.mem_filterMap.mp ha
        have hjne : j ≠ itv.id := fun hjj => hnotmem (hjj ▸ hjmem)
        rw [hlook2 j hjne] at hja
        have hany := hdup
        rw [hdupf] at hany
        have hforall := List.any_eq_false.mp hany.symm
        have hj1 := hforall j (by rwa [hids1])
        rw [hlook1 j hjne] at hj1
        cases hlj : lookupItem s j with
        | none => simp [hlj] at hja
        | some x =>
          simp only [hlj] at hja hj1
          by_cases hxig : x.ignored
          · simp [hxig] at hja
          · simp only [hxig, Bool.false_eq_true, if_false, Option.some.injEq] at hja
            subst hja
            simpa using hj1

theorem listAnyCongr {α : Type _} (l : List α) (f g : α → Bool)
    (h : ∀ a ∈ l, f a = g a) : l.any f = l.any g := by
  induction l with
  | nil => rfl
  | cons a l ih =>
    simp only [List.any_cons]
    rw [h a (by simp), ih (fun x hx => h x (by simp [hx]))]

theorem addOneItemToChart_resolvable (s : ParserState) (role : Role)
    (it0 : ActiveItem) :
    ∃ x, lookupItem (addOneItemToChart s role it0)
      ((lookupItem s it0.id).getD it0).id = some x := by
  unfold addOneItemToChart
  set itv := (lookupItem s it0.id).getD it0 with hitv
  set s1 : ParserState := { s with all_items := aSet s.all_items itv.id itv } with hs1
  set dup := (roleIds s1 role).any (fun j =>
    match lookupItem s1 j with
    | some x => itemBeq x itv
    | none => false) with hdup
  set itf := if dup then { itv with ignored := true } else itv with hitf
  set s2 : ParserState := { s1 with all_items := aSet s1.all_items itv.id itf } with hs2
  have hself : lookupItem s2 itv.id = some itf := by
    rw [hs2]
    show aLookup (aSet s1.all_items itv.id itf) itv.id = some itf
    exact aLookup_aSet_self _ _ _
  by_cases hc : (roleIds s2 role).contains itv.id
  · rw [if_pos hc]
    exact ⟨itf, hself⟩
  · rw [if_neg hc]
    refine ⟨itf, ?_⟩
    unfold lookupItem
    rw [setRoleIds_all_items]
    exact hself

theorem addOneItemToChart_dup_flagging (s : ParserState) (role : Role)
    (it0 : ActiveItem)
    (hni : ((lookupItem s it0.id).getD it0).id ∉ roleIds s role) :
    (roleHasEqual s role ((lookupItem s it0.id).getD it0) = true →
      lookupItem (addOneItemToChart s role it0) ((lookupItem s it0.id).getD it0).id =
        some { (lookupItem s it0.id).getD it0 with ignored := true }) ∧
    (roleHasEqual s role ((lookupItem s it0.id).getD it0) = false →
      lookupItem (addOneItemToChart s role it0) ((lookupItem s it0.id).getD it0).id =
        some ((lookupItem s it0.id).getD it0)) := by
  unfold addOneItemToChart
  set itv := (lookupItem s it0.id).getD it0 with hitv
  set s1 : ParserState := { s with all_items := aSet s.all_items itv.id itv } with hs1
  set dup := (roleIds s1 role).any (fun j =>
    match lookupItem s1 j with
    | some x => itemBeq x itv
    | none => false) with hdup
  set itf := if dup then { itv with ignored := true } else itv with hitf
  set s2 : ParserState := { s1 with all_items := aSet s1.all_items itv.id itf } with hs2
  have hids1 : roleIds s1 role = roleIds s role := roleIds_all_items_update s role _
  have hlook1 : ∀ j, j ≠ itv.id → lookupItem s1 j = lookupItem s j := by
    intro j hj
    rw [hs1]
    show aLookup (aSet s.all_items itv.id itv) j = lookupItem s j
    rw [aLookup_aSet_ne _ _ _ _ hj]
    rfl
  -- the duplicate test equals `roleHasEqual` on the pre-state
  have hdupeq : dup = roleHasEqual s role itv := by
    rw [hdup, hids1]
    unfold roleHasEqual
    refine listAnyCongr _ _ _ (fun j hj => ?_)
    have hjne : j ≠ itv.id := fun hjj => hni (hjj ▸ hj)
    rw [hlook1 j hjne]
  have hself : lookupItem s2 itv.id = some itf := by
    rw [hs2]
    show aLookup (aSet s1.all_items itv.id itf) itv.id = some itf
    exact aLookup_aSet_self _ _ _
  have hlookfin : ∀ k, lookupItem
      (if (roleIds s2 role).contains itv.id then s2
       else setRoleIds s2 role (roleIds s2 role ++ [itv.id])) k =
      lookupItem s2 k := by
    intro k
    by_cases hc : (roleIds s2 role).contains itv.id
    · rw [if_pos hc]
    · rw [if_neg hc]
      unfold lookupItem
      rw [setRoleIds_all_items]
  constructor
  · intro heq
    rw [hlookfin]
    have hfl : itf = { itv with ignored := true } := by
      rw [hitf, hdupeq, heq]
      rfl
    exact hfl ▸ hself
  · intro heq
    rw [hlookfin]
    have hfl : itf = itv := by
      rw [hitf, hdupeq, heq]
      rfl
    exact hfl ▸ hself

/-- The copy of the claim's violated property, as a Bool checker: some two
non-ignored items stored in the given role are structurally equal. -/
def dupNonIgnoredInRole (s : ParserState) (role : Role) : Bool :=
  let its := get_items_list s role
  its.enum.any (fun p => its.enum.any (fun q => p.1 < q.1 && itemBeq p.2 q.2))

/-- Grammar whose parse on input `"a"` leaves two structurally equal
non-ignored items in the active role: `S → h(A)` with
`h([A]) = [A(0) a]`, `A → 'a'`, `A → f4(B)` with `f4([B]) = [B(0)]`,
`B → 'a'`.  The two derivations of `A` with value `a` complete in different
sweeps; the first resulting combined `S`-item is scanned before the second is
created, so the second passes the duplicate check, and once it is scanned too
the two become structurally equal while both non-ignored. -/
def c7funcs : List MCFGFunc := [
  ⟨"h", ["A"], [["A(0)", "a"]]⟩,
  ⟨"f4", ["B"], [["B(0)"]]⟩]

/-- The raw rules of the C7 grammar. -/
def c7raw : List RawRule := [
  ⟨"S", "h", ["A"]⟩,
  ⟨"A", "a", []⟩,
  ⟨"A", "f4", ["B"]⟩,
  ⟨"B", "a", []⟩]

/-- The C7 grammar after construction and simplification. -/
def c7G : MCFG := mkMCFG ["a"] c7funcs c7raw

set_option maxRecDepth 4000

/-- Claim C7, counterexample: after parsing `"a"` with the C7 grammar the
active role of the chart holds two non-ignored structurally equal items
(equality ignoring id and antecedent ids), refuting "at every point of a
parse, no two non-ignored items stored in the same chart role are
structurally equal". -/
theorem c7_counterexample_duplicate_items :
    dupNonIgnoredInRole (parseFinalState c7G "a" 40) Role.active = true := by
  decide

/-- Claim C7 as amended: duplicate detection holds at insertion time —
inserting any item preserves the invariant that no two non-ignored items of a
role are structurally equal; the incoming item stays resolvable by id; and
when its id is fresh for the role it is stored flagged `ignored` exactly when
a structurally equal item is already among the role's stored values.  (At
later points of the parse the invariant can be broken by the in-place
`scanned`-flag update, as the counterexample shows.) -/
theorem c7_duplicate_detection_amended :
    (∀ (s : ParserState) (role : Role) (it0 : ActiveItem),
      roleNoDup s role → roleNoDup (addOneItemToChart s role it0) role) ∧
    (∀ (s : ParserState) (role : Role) (it0 : ActiveItem),
      ∃ x, lookupItem (addOneItemToChart s role it0)
        ((lookupItem s it0.id).getD it0).id = some x) ∧
    (∀ (s : ParserState) (role : Role) (it0 : ActiveItem),
      ((lookupItem s it0.id).getD it0).id ∉ roleIds s role →
      (roleHasEqual s role ((lookupItem s it0.id).getD it0) = true →
        lookupItem (addOneItemToChart s role it0)
          ((lookupItem s it0.id).getD it0).id =
          some { (lookupItem s it0.id).getD it0 with ignored := true }) ∧
      (roleHasEqual s role ((lookupItem s it0.id).getD it0) = false →
        lookupItem (addOneItemToChart s role it0)
          ((lookupItem s it0.id).getD it0).id =
          some ((lookupItem s it0.id).getD it0))) :=
  ⟨addOneItemToChart_preserves_roleNoDup, addOneItemToChart_resolvable,
    addOneItemToChart_dup_flagging⟩

/-- An item stored in the witness chart for C7. -/
def c7wItemA : ActiveItem :=
  { symbol := "P", dot_position := (0, 0), found_start := 0, found_end := 0,
    range_order := [0], token_index := 0, action_type := "predict",
    rule := default, found_sequence := [], antecedent_ids := [],
    scanned := false, combined := false, ignored := false, id := 1,
    vector_binding := [["p"]] }

/-- A structurally equal incoming item with a different id. -/
def c7wItemB : ActiveItem := { c7wItemA with id := 2, antecedent_ids := [1] }

/-- Witness chart for C7 holding only `c7wItemA` in the active role. -/
def c7wState : ParserState :=
  { start_symbol := "S", terminals := ["p"], rules := [], tokens := ["p"],
    text := "p", all_items := [(1, c7wItemA)], active_ids := [1],
    completed_comp_ids := [], completed_ids := [], prediction_strategy := [],
    combined_couples := [], counter := 2 }

theorem c7_duplicate_detection_amended_witness :
    roleNoDup (addOneItemToChart c7wState Role.active c7wItemB) Role.active ∧
    (∃ x, lookupItem (addOneItemToChart c7wState Role.active c7wItemB)
      ((lookupItem c7wState c7wItemB.id).getD c7wItemB).id = some x) ∧
    lookupItem (addOneItemToChart c7wState Role.active c7wItemB)
      ((lookupItem c7wState c7wItemB.id).getD c7wItemB).id =
      some { (lookupItem c7wState c7wItemB.id).getD c7wItemB with ignored := true } := by
  have hgl : get_items_list c7wState Role.active = [c7wItemA] := by decide
  refine ⟨?_, ?_, ?_⟩
  · refine c7_duplicate_detection_amended.1 c7wState Role.active c7wItemB ?_
    unfold roleNoDup
    rw [hgl]
    exact List.pairwise_singleton _ _
  · exact c7_duplicate_detection_amended.2.1 c7wState Role.active c7wItemB
  · exact (c7_duplicate_detection_amended.2.2 c7wState Role.active c7wItemB
      (by decide)).1 (by decide)

/-! ## Claim C5: structure of the extracted parsing table

`get_parsing_table` is a reverse BFS with prepending.  When an antecedent is
shared at different depths, BFS discovers it at its shallow occurrence and
pops it early, so it ends up *after* a deeper item that lists it — the list
is not topologically reverse-ordered.  The grammar `S → f(A, E)` with
`f([A,E]) = [A(0) E(0)]`, `A → g(E)` with `g([E]) = [E(0)]`, `E → 'e'`
realises this on input `"e e"`: the complete `E` item is both a direct
antecedent of the goal's combine step and an antecedent of the deeper
`A`-derivation.  The remaining parts of the claim hold under well-formedness
hypotheses about the chart (proved below as the amended claim). -/

/-- Items of a trace reachable from the item stored under `root` by
following antecedent links resolved through the `all_items` index. -/
inductive ReachableFrom (allItems : List (Nat × ActiveItem)) (root : Nat) :
    ActiveItem → Prop where
  | root (it : ActiveItem) : aLookup allItems root = some it →
      ReachableFrom allItems root it
  | step (it it' : ActiveItem) (a : Nat) : ReachableFrom allItems root it →
      a ∈ it.antecedent_ids → aLookup allItems a = some it' →
      ReachableFrom allItems root it'

theorem aLookup_mem (l : List (Nat × ActiveItem)) (k : Nat) (x : ActiveItem)
    (h : aLookup l k = some x) : (k, x) ∈ l := by
  unfold aLookup at h
  cases hf : l.find? (fun p => p.1 == k) with
  | none => rw [hf] at h; simp at h
  | some p =>
    rw [hf] at h
    simp at h
    have hm := List.mem_of_find?_eq_some hf
    have hp := List.find?_some hf
    have hk : p.1 = k := by simpa using hp
    have hpx : p = (k, x) := by
      obtain ⟨p1, p2⟩ := p
      subst hk
      subst h
      rfl
    exact hpx ▸ hm

theorem aLookup_isSome_of_key_mem (l : List (Nat × ActiveItem)) (k : Nat)
    (h : ∃ q ∈ l, q.1 = k) : ∃ x, aLookup l k = some x := by
  obtain ⟨q, hq, hk⟩ := h
  unfold aLookup
  cases hf : l.find? (fun p => p.1 == k) with
  | some p => exact ⟨p.2, rfl⟩
  | none =>
    exfalso
    have := List.find?_eq_none.mp hf q hq
    simp [hk] at this

/-- The pending queue left by the loop of `get_parsing_table` after the
given number of iterations — an empty result certifies that the loop
finished by exhausting its queue rather than its fuel. -/
def gptQueue (allItems : List (Nat × ActiveItem)) :
    Nat → List ActiveItem → List Nat → List Nat
  | 0, _, queue => queue
  | _ + 1, _, [] => []
  | fuel + 1, table, a :: rest =>
    let it := (aLookup allItems a).getD default
    if table.any (itemBeq it) then gptQueue allItems fuel table rest
    else gptQueue allItems fuel (it :: table) (rest ++ it.antecedent_ids)

theorem gptAux_spec (allItems : List (Nat × ActiveItem)) (root : Nat)
    (goalItem : ActiveItem)
    (H0 : ∀ p ∈ allItems, p.2.id = p.1)
    (H1 : ∀ p ∈ allItems, ∀ a ∈ p.2.antecedent_ids, ∃ q ∈ allItems, q.1 = a)
    (H3 : ∀ p ∈ allItems, ∀ q ∈ allItems, itemBeq p.2 q.2 = true → p.1 = q.1) :
    ∀ (fuel : Nat) (table : List ActiveItem) (queue : List Nat),
    table.getLast? = some goalItem →
    (∀ it ∈ table, ReachableFrom allItems root it) →
    (∀ a ∈ queue, ∃ it, ReachableFrom allItems root it ∧ a ∈ it.antecedent_ids) →
    (∀ it ∈ table, ∀ a ∈ it.antecedent_ids, (∃ x ∈ table, x.id = a) ∨ a ∈ queue) →
    (∀ it ∈ table, (it.id, it) ∈ allItems) →
    gptQueue allItems fuel table queue = [] →
    ((gptAux allItems fuel table queue).getLast? = some goalItem ∧
     (∀ it ∈ gptAux allItems fuel table queue, ReachableFrom allItems root it) ∧
     (∀ it ∈ gptAux allItems fuel table queue, ∀ a ∈ it.antecedent_ids,
        ∃ x ∈ gptAux allItems fuel table queue, x.id = a)) := by
  intro fuel
  induction fuel with
  | zero =>
    intro table queue hlast hreach hq hclose _ hterm
    have hq0 : queue = [] := hterm
    subst hq0
    refine ⟨hlast, hreach, ?_⟩
    intro it hit a ha
    rcases hclose it hit a ha with h | h
    · exact h
    · simp at h
  | succ n ih =>
    intro table queue hlast hreach hq hclose hstored hterm
    cases queue with
    | nil =>
      refine ⟨hlast, hreach, ?_⟩
      intro it hit a ha
      rcases hclose it hit a ha with h | h
      · exact h
      · simp at h
    | cons a rest =>
      -- the popped id resolves: it is an antecedent of a reachable item
      obtain ⟨it0, hit0r, hit0a⟩ := hq a (by simp)
      have hstored0 : ∃ k, aLookup allItems k = some it0 := by
        cases hit0r with
        | root it h => exact ⟨root, h⟩
        | step it it' b _ _ h => exact ⟨b, h⟩
      obtain ⟨k0, hk0⟩ := hstored0
      have hmem0 : (k0, it0) ∈ allItems := aLookup_mem _ _ _ hk0
      obtain ⟨ita, hita⟩ := aLookup_isSome_of_key_mem allItems a
        (H1 (k0, it0) hmem0 a hit0a)
      have hmema : (a, ita) ∈ allItems := aLookup_mem _ _ _ hita
      have hida : ita.id = a := H0 (a, ita) hmema
      have hreacha : ReachableFrom allItems root ita :=
        ReachableFrom.step it0 ita a hit0r hit0a hita
      show _ ∧ _ ∧ _
      have hGQ : gptQueue allItems (n + 1) table (a :: rest) =
          (if table.any (itemBeq ((aLookup allItems a).getD default)) then
            gptQueue allItems n table rest
          else gptQueue allItems n (((aLookup allItems a).getD default) :: table)
            (rest ++ ((aLookup allItems a).getD default).antecedent_ids)) := rfl
      rw [hGQ, hita] at hterm
      simp only [Option.getD_some] at hterm
      rw [show gptAux allItems (n + 1) table (a :: rest) =
          (if table.any (itemBeq ((aLookup allItems a).getD default)) then
            gptAux allItems n table rest
          else gptAux allItems n (((aLookup allItems a).getD default) :: table)
            (rest ++ ((aLookup allItems a).getD default).antecedent_ids)) from rfl]
      rw [hita]
      simp only [Option.getD_some]
      by_cases hdup : table.any (itemBeq ita)
      · rw [if_pos hdup] at hterm ⊢
        -- a structurally equal item is already in the table; by injectivity
        -- it is the item with id a
        obtain ⟨t', ht'mem, ht'beq⟩ := List.any_eq_true.mp hdup
        have ht'id : a = t'.id :=
          H3 (a, ita) hmema (t'.id, t') (hstored t' ht'mem) ht'beq
        refine ih table rest hlast hreach ?_ ?_ hstored hterm
        · intro b hb
          exact hq b (by simp [hb])
        · intro it hit b hb
          rcases hclose it hit b hb with h | h
          · exact Or.inl h
          · rcases List.mem_cons.mp h with h | h
            · exact Or.inl ⟨t', ht'mem, (h ▸ ht'id).symm⟩
            · exact Or.inr h
      · rw [if_neg hdup] at hterm ⊢
        refine ih (ita :: table) (rest ++ ita.antecedent_ids) ?_ ?_ ?_ ?_ ?_ hterm
        · rw [List.getLast?_cons]
          cases htt : table with
          | nil => rw [htt] at hlast; simp at hlast
          | cons y ys =>
            rw [htt] at hlast
            simpa [List.getLast?_cons] using hlast
        · intro it hit
          rcases List.mem_cons.mp hit with h | h
          · exact h ▸ hreacha
          · exact hreach it h
        · intro b hb
          rcases List.mem_append.mp hb with h | h
          · exact hq b (by simp [h])
          · exact ⟨ita, hreacha, h⟩
        · intro it hit b hb
          rcases List.mem_cons.mp hit with h | h
          · subst h
            exact Or.inr (List.mem_append.mpr (Or.inr hb))
          · rcases hclose it h b hb with hc | hc
            · obtain ⟨x, hx, hxid⟩ := hc
              exact Or.inl ⟨x, by simp [hx], hxid⟩
            · rcases List.mem_cons.mp hc with hc | hc
              · exact Or.inl ⟨ita, by simp, hc ▸ hida⟩
              · exact Or.inr (List.mem_append.mpr (Or.inl hc))
        · intro it hit
          rcases List.mem_cons.mp hit with h | h
          · subst h
            exact hida ▸ hmema
          · exact hstored it h

/-- Claim C5 as amended: for a chart index whose entries carry their own key
as id, resolve every listed antecedent, and contain no two structurally
equal items under distinct keys, and when the extraction loop drains its
queue within the given fuel: every item of the extracted table is reachable
from the goal along antecedent links, every antecedent id listed by a table
item identifies an item in the table, and the goal item is last.  (The
topological-ordering part of the original claim is dropped; the
counterexample shows an item occurring before one of its antecedents.) -/
theorem c5_trace_structure_amended (allItems : List (Nat × ActiveItem))
    (goalId : Nat) (fuel : Nat) (goalItem : ActiveItem)
    (H0 : ∀ p ∈ allItems, p.2.id = p.1)
    (H1 : ∀ p ∈ allItems, ∀ a ∈ p.2.antecedent_ids, ∃ q ∈ allItems, q.1 = a)
    (H3 : ∀ p ∈ allItems, ∀ q ∈ allItems, itemBeq p.2 q.2 = true → p.1 = q.1)
    (hg : aLookup allItems goalId = some goalItem)
    (hterm : gptQueue allItems fuel [goalItem] goalItem.antecedent_ids = []) :
    ((get_parsing_table allItems goalId fuel).getLast? = some goalItem ∧
     (∀ it ∈ get_parsing_table allItems goalId fuel,
        ReachableFrom allItems goalId it) ∧
     (∀ it ∈ get_parsing_table allItems goalId fuel, ∀ a ∈ it.antecedent_ids,
        ∃ x ∈ get_parsing_table allItems goalId fuel, x.id = a)) := by
  have hgd : (aLookup allItems goalId).getD default = goalItem := by
    rw [hg]
    rfl
  have hmemg : (goalId, goalItem) ∈ allItems := aLookup_mem _ _ _ hg
  have hidg : goalItem.id = goalId := H0 (goalId, goalItem) hmemg
  unfold get_parsing_table
  rw [hgd]
  exact gptAux_spec allItems goalId goalItem H0 H1 H3 fuel [goalItem]
    goalItem.antecedent_ids rfl
    (fun it hit => by
      rcases List.mem_singleton.mp hit with h
      exact h ▸ ReachableFrom.root goalItem hg)
    (fun a ha => ⟨goalItem, ReachableFrom.root goalItem hg, ha⟩)
    (fun it hit a ha => by
      rcases List.mem_singleton.mp hit with h
      exact Or.inr (h ▸ ha))
    (fun it hit => by
      rcases List.mem_singleton.mp hit with h
      subst h
      exact hidg ▸ hmemg)
    hterm

/-- Violation of the topological-order property: some trace item appears
before (at a lower index than) one of its antecedents. -/
def topoViolation (table : List ActiveItem) : Bool :=
  table.enum.any (fun p => table.enum.any (fun q =>
    p.1 < q.1 && p.2.antecedent_ids.contains q.2.id))

/-- Grammar for the C5 counterexample: `S → f(A, E)` with
`f([A,E]) = [A(0) E(0)]`, `A → g(E)` with `g([E]) = [E(0)]`, `E → 'e'`. -/
def c5funcs : List MCFGFunc := [
  ⟨"f", ["A", "E"], [["A(0)", "E(0)"]]⟩,
  ⟨"g", ["E"], [["E(0)"]]⟩]

/-- The raw rules of the C5 grammar. -/
def c5raw : List RawRule := [
  ⟨"S", "f", ["A", "E"]⟩,
  ⟨"A", "g", ["E"]⟩,
  ⟨"E", "e", []⟩]

/-- The C5 grammar after construction and simplification. -/
def c5G : MCFG := mkMCFG ["e"] c5funcs c5raw

/-- Claim C5, counterexample: the trace returned by `parse` on `"e e"` with
the C5 grammar contains an item that appears before one of its antecedents
(the complete `E` item is shared between the goal's combine and the deeper
`A` derivation), refuting "the returned list is topologically
reverse-ordered, so every item appears after all of its antecedents". -/
theorem c5_counterexample_not_topologically_ordered :
    (parse c5G "e e" 60).map topoViolation = some true := by
  decide

/-- A two-item chart used to witness the amended C5 theorem. -/
def c5wItems : List (Nat × ActiveItem) :=
  [(1, { symbol := "E", dot_position := (1, 0), found_start := 0, found_end := 0,
         range_order := [0], token_index := 0, action_type := "predict",
         rule := default, found_sequence := ["e"], antecedent_ids := [],
         scanned := false, combined := false, ignored := false, id := 1,
         vector_binding := [["e"]] }),
   (2, { symbol := "S", dot_position := (1, 0), found_start := 0, found_end := 1,
         range_order := [0], token_index := 0, action_type := "scan",
         rule := default, found_sequence := ["e"], antecedent_ids := [1],
         scanned := false, combined := false, ignored := false, id := 2,
         vector_binding := [["e"]] })]

theorem c5_trace_structure_amended_witness :
    ((get_parsing_table c5wItems 2 5).getLast? = some (c5wItems.get! 1).2 ∧
     (∀ it ∈ get_parsing_table c5wItems 2 5, ReachableFrom c5wItems 2 it) ∧
     (∀ it ∈ get_parsing_table c5wItems 2 5, ∀ a ∈ it.antecedent_ids,
        ∃ x ∈ get_parsing_table c5wItems 2 5, x.id = a)) := by
  exact c5_trace_structure_amended c5wItems 2 5 (c5wItems.get! 1).2
    (by decide) (by decide) (by decide) (by decide) (by decide)

/-! ## Frame relation over engine steps

Claims C1, C6 and C8 quantify over whole parses, so we establish a frame
relation `frameLe` holding between the state before and after every engine
operation: the environment fields are unchanged, rules change only in their
`used` flags and monotonically, stored items change only in their
monotonic `scanned`/`ignored` flags, the frontier, memo and
completed-role collections only grow by appending, and an id that leaves
the active role is stored in the completed role.  The relation is proved
op by op and composed through the folds and loops up to `parse`, under the
engine invariant `keysMatch` (every `all_items` entry carries its key as
its `id` field). -/

/-- An item with its two monotonic flags cleared (for stating that an
operation changes an item at most in those flags). -/
def eraseFlags (it : ActiveItem) : ActiveItem :=
  { it with scanned := false, ignored := false }

/-- A rule with its sticky `used` flag cleared. -/
def ruleCore (r : MCFGRule) : MCFGRule := { r with used := false }

/-- Rule lists related by per-position core equality and `used`
monotonicity. -/
def rulesLe (rs rs' : List MCFGRule) : Prop :=
  rs'.length = rs.length ∧
  ∀ i r, rs.get? i = some r → ∃ r', rs'.get? i = some r' ∧
    ruleCore r' = ruleCore r ∧ (r.used = true → r'.used = true)

/-- Item stores related by per-key preservation modulo monotonic flags. -/
def itemsLe (l l' : List (Nat × ActiveItem)) : Prop :=
  ∀ k it, aLookup l k = some it → ∃ it', aLookup l' k = some it' ∧
    eraseFlags it' = eraseFlags it ∧ (it.scanned = true → it'.scanned = true) ∧
    (it.ignored = true → it'.ignored = true)

/-- Every `all_items` entry carries its key as its `id` field (an engine
invariant: items are stored under their own id). -/
def keysMatch (s : ParserState) : Prop := ∀ p ∈ s.all_items, p.2.id = p.1

/-- The frame relation between a pre- and post-state of an engine step. -/
def frameLe (s s' : ParserState) : Prop :=
  s'.start_symbol = s.start_symbol ∧ s'.terminals = s.terminals ∧
  s'.tokens = s.tokens ∧ s'.text = s.text ∧
  rulesLe s.rules s'.rules ∧
  itemsLe s.all_items s'.all_items ∧
  (∃ t, s'.prediction_strategy = s.prediction_strategy ++ t) ∧
  (∃ t, s'.combined_couples = s.combined_couples ++ t) ∧
  (∃ t, s'.completed_ids = s.completed_ids ++ t) ∧
  (∃ t, s'.completed_comp_ids = s.completed_comp_ids ++ t) ∧
  (∀ id ∈ s.active_ids, id ∈ s'.active_ids ∨ id ∈ s'.completed_ids)

/-- A step both preserves `keysMatch` and satisfies the frame relation. -/
def stepOk (s s' : ParserState) : Prop :=
  (keysMatch s → keysMatch s') ∧ (keysMatch s → frameLe s s')

theorem rulesLe_refl (rs : List MCFGRule) : rulesLe rs rs :=
  ⟨rfl, fun _ r h => ⟨r, h, rfl, fun hu => hu⟩⟩

theorem rulesLe_trans {a b c : List MCFGRule} (h1 : rulesLe a b)
    (h2 : rulesLe b c) : rulesLe a c := by
  refine ⟨h2.1.trans h1.1, fun i r hir => ?_⟩
  obtain ⟨r', hb, hc, hu⟩ := h1.2 i r hir
  obtain ⟨r'', hb', hc', hu'⟩ := h2.2 i r' hb
  exact ⟨r'', hb', hc'.trans hc, fun h => hu' (hu h)⟩

theorem itemsLe_refl (l : List (Nat × ActiveItem)) : itemsLe l l :=
  fun _ it h => ⟨it, h, rfl, fun hs => hs, fun hi => hi⟩

theorem itemsLe_trans {a b c : List (Nat × ActiveItem)} (h1 : itemsLe a b)
    (h2 : itemsLe b c) : itemsLe a c := by
  intro k it h
  obtain ⟨it', hb, he, hs, hi⟩ := h1 k it h
  obtain ⟨it'', hb', he', hs', hi'⟩ := h2 k it' hb
  exact ⟨it'', hb', he'.trans he, fun h => hs' (hs h), fun h => hi' (hi h)⟩

theorem frameLe_refl (s : ParserState) : frameLe s s :=
  ⟨rfl, rfl, rfl, rfl, rulesLe_refl _, itemsLe_refl _,
    ⟨[], by simp⟩, ⟨[], by simp⟩, ⟨[], by simp⟩, ⟨[], by simp⟩,
    fun id h => Or.inl h⟩

theorem frameLe_trans {a b c : ParserState} (h1 : frameLe a b)
    (h2 : frameLe b c) : frameLe a c := by
  obtain ⟨e1, e2, e3, e4, hr, hi, ⟨t1, hp⟩, ⟨t2, hc1⟩, ⟨t3, hc2⟩, ⟨t4, hc3⟩, ha⟩ := h1
  obtain ⟨f1, f2, f3, f4, hr', hi', ⟨u1, hp'⟩, ⟨u2, hc1'⟩, ⟨u3, hc2'⟩, ⟨u4, hc3'⟩, ha'⟩ := h2
  refine ⟨f1.trans e1, f2.trans e2, f3.trans e3, f4.trans e4,
    rulesLe_trans hr hr', itemsLe_trans hi hi',
    ⟨t1 ++ u1, by rw [hp', hp, List.append_assoc]⟩,
    ⟨t2 ++ u2, by rw [hc1', hc1, List.append_assoc]⟩,
    ⟨t3 ++ u3, by rw [hc2', hc2, List.append_assoc]⟩,
    ⟨t4 ++ u4, by rw [hc3', hc3, List.append_assoc]⟩,
    fun id h => ?_⟩
  rcases ha id h with h' | h'
  · rcases ha' id h' with h'' | h''
    · exact Or.inl h''
    · exact Or.inr h''
  · right
    rw [hc2']
    exact List.mem_append.mpr (Or.inl h')

theorem stepOk_refl (s : ParserState) : stepOk s s :=
  ⟨fun h => h, fun _ => frameLe_refl s⟩

theorem stepOk_trans {a b c : ParserState} (h1 : stepOk a b) (h2 : stepOk b c) :
    stepOk a c := by
  refine ⟨fun hk => h2.1 (h1.1 hk), fun hk => ?_⟩
  exact frameLe_trans (h1.2 hk) (h2.2 (h1.1 hk))

/-- Composition of `stepOk` through a fold whose accumulator projects to a
state. -/
theorem stepOk_foldl {α β : Type _} (π : β → ParserState) (f : β → α → β)
    (h : ∀ b a, stepOk (π b) (π (f b a))) :
    ∀ (l : List α) (b : β), stepOk (π b) (π (l.foldl f b)) := by
  intro l
  induction l with
  | nil => intro b; exact stepOk_refl _
  | cons a l ih =>
    intro b
    exact stepOk_trans (h b a) (ih (f b a))

theorem mem_aSet (l : List (Nat × ActiveItem)) (k : Nat) (v : ActiveItem) :
    ∀ p ∈ aSet l k v, p ∈ l ∨ p = (k, v) := by
  induction l with
  | nil => intro p hp; simp [aSet] at hp; exact Or.inr hp
  | cons q qs ih =>
    intro p hp
    by_cases h : q.1 == k
    · simp only [aSet, h, if_true] at hp
      rcases List.mem_cons.mp hp with h' | h'
      · exact Or.inr h'
      · exact Or.inl (List.mem_cons.mpr (Or.inr h'))
    · simp only [aSet, h, Bool.false_eq_true, if_false] at hp
      rcases List.mem_cons.mp hp with h' | h'
      · exact Or.inl (List.mem_cons.mpr (Or.inl h'))
      · rcases ih p h' with h'' | h''
        · exact Or.inl (List.mem_cons.mpr (Or.inr h''))
        · exact Or.inr h''

theorem roleIds_setRoleIds_other (s : ParserState) (r r' : Role) (l : List Nat)
    (h : r' ≠ r) : roleIds (setRoleIds s r l) r' = roleIds s r' := by
  cases r <;> cases r' <;> first | rfl | exact absurd rfl h

theorem addStrs_append (xs : List String) :
    ∀ l : List String, ∃ t, addStrs l xs = l ++ t := by
  induction xs with
  | nil => intro l; exact ⟨[], by simp [addStrs]⟩
  | cons x xs ih =>
    intro l
    show ∃ t, addStrs (addStr l x) xs = l ++ t
    by_cases h : l.contains x
    · have hax : addStr l x = l := by unfold addStr; rw [if_pos h]
      rw [hax]
      exact ih l
    · have hax : addStr l x = l ++ [x] := by unfold addStr; rw [if_neg h]
      rw [hax]
      obtain ⟨t, ht⟩ := ih (l ++ [x])
      exact ⟨[x] ++ t, by rw [ht, List.append_assoc]⟩

theorem addOneItemToChart_stepOk (s : ParserState) (role : Role)
    (it0 : ActiveItem) : stepOk s (addOneItemToChart s role it0) := by
  unfold addOneItemToChart
  set itv := (lookupItem s it0.id).getD it0 with hitv
  set s1 : ParserState := { s with all_items := aSet s.all_items itv.id itv } with hs1
  set dup := (roleIds s1 role).any (fun j =>
    match lookupItem s1 j with
    | some x => itemBeq x itv
    | none => false) with hdup
  set itf := if dup then { itv with ignored := true } else itv with hitf
  set s2 : ParserState := { s1 with all_items := aSet s1.all_items itv.id itf } with hs2
  have hall2 : s2.all_items = aSet s.all_items itv.id itf := by
    rw [hs2]
    show aSet (aSet s.all_items itv.id itv) itv.id itf = aSet s.all_items itv.id itf
    exact aSet_aSet _ _ _ _
  have hitfid : itf.id = itv.id := by
    rw [hitf]
    by_cases hd : dup
    · rw [if_pos hd]
    · rw [if_neg hd]
  -- the final state in either branch
  set sF := (if (roleIds s2 role).contains itv.id then s2
    else setRoleIds s2 role (roleIds s2 role ++ [itv.id])) with hsF
  have hallF : sF.all_items = aSet s.all_items itv.id itf := by
    rw [hsF]
    by_cases hc : (roleIds s2 role).contains itv.id
    · rw [if_pos hc]
      exact hall2
    · rw [if_neg hc, setRoleIds_all_items]
      exact hall2
  have hroles : ∀ r' : Role, roleIds sF r' = roleIds s r' ∨
      roleIds sF r' = roleIds s r' ++ [itv.id] := by
    intro r'
    have hid2 : roleIds s2 r' = roleIds s r' := by
      rw [hs2, roleIds_all_items_update, hs1, roleIds_all_items_update]
    rw [hsF]
    by_cases hc : (roleIds s2 role).contains itv.id
    · rw [if_pos hc]
      exact Or.inl hid2
    · rw [if_neg hc]
      by_cases hr : r' = role
      · subst hr
        right
        rw [roleIds_setRoleIds, hid2]
      · left
        rw [roleIds_setRoleIds_other _ _ _ _ hr, hid2]
  have henv : sF.start_symbol = s.start_symbol ∧ sF.terminals = s.terminals ∧
      sF.tokens = s.tokens ∧ sF.text = s.text ∧ sF.rules = s.rules ∧
      sF.prediction_strategy = s.prediction_strategy ∧
      sF.combined_couples = s.combined_couples := by
    rw [hsF]
    by_cases hc : (roleIds s2 role).contains itv.id
    · rw [if_pos hc]
      exact ⟨rfl, rfl, rfl, rfl, rfl, rfl, rfl⟩
    · rw [if_neg hc]
      cases role <;> exact ⟨rfl, rfl, rfl, rfl, rfl, rfl, rfl⟩
  constructor
  · -- keysMatch preserved
    intro hk p hp
    rw [hallF] at hp
    rcases mem_aSet _ _ _ p hp with h | h
    · exact hk p h
    · rw [h]
      exact hitfid
  · -- frame
    intro hk
    have hitvid : itv.id = it0.id := by
      rw [hitv]
      cases hlv : lookupItem s it0.id with
      | none => rfl
      | some x =>
        have := hk (it0.id, x) (aLookup_mem _ _ _ hlv)
        simpa using this
    refine ⟨henv.1, henv.2.1, henv.2.2.1, henv.2.2.2.1, ?_, ?_, ?_, ?_, ?_, ?_, ?_⟩
    · rw [henv.2.2.2.2.1]
      exact rulesLe_refl _
    · -- items change only at key itv.id, by a monotonic flag
      intro k it hlk
      rw [hallF]
      by_cases hkk : k = itv.id
      · subst hkk
        have hitveq : itv = it := by
          rw [hitvid] at hlk
          rw [hitv,
            show lookupItem s it0.id = aLookup s.all_items it0.id from rfl, hlk]
          rfl
        refine ⟨itf, aLookup_aSet_self _ _ _, ?_, ?_, ?_⟩
        · rw [hitf]
          by_cases hd : dup
          · rw [if_pos hd, ← hitveq]
            rfl
          · rw [if_neg hd, ← hitveq]
        · intro hsc
          rw [hitf]
          by_cases hd : dup
          · rw [if_pos hd]
            show itv.scanned = true
            rw [hitveq]
            exact hsc
          · rw [if_neg hd, hitveq]
            exact hsc
        · intro hig
          rw [hitf]
          by_cases hd : dup
          · rw [if_pos hd]
          · rw [if_neg hd, hitveq]
            exact hig
      · rw [aLookup_aSet_ne _ _ _ _ hkk]
        exact ⟨it, hlk, rfl, fun h => h, fun h => h⟩
    · exact ⟨[], by rw [henv.2.2.2.2.2.1, List.append_nil]⟩
    · exact ⟨[], by rw [henv.2.2.2.2.2.2, List.append_nil]⟩
    · rcases hroles .completed with h | h
      · exact ⟨[], by
          show roleIds sF .completed = roleIds s .completed ++ []
          rw [h, List.append_nil]⟩
      · exact ⟨[itv.id], by
          show roleIds sF .completed = roleIds s .completed ++ [itv.id]
          exact h⟩
    · rcases hroles .completedComp with h | h
      · exact ⟨[], by
          show roleIds sF .completedComp = roleIds s .completedComp ++ []
          rw [h, List.append_nil]⟩
      · exact ⟨[itv.id], by
          show roleIds sF .completedComp = roleIds s .completedComp ++ [itv.id]
          exact h⟩
    · intro id hid
      left
      rcases hroles .active with h | h
      · rw [show sF.active_ids = roleIds sF .active from rfl, h]
        exact hid
      · rw [show sF.active_ids = roleIds sF .active from rfl, h]
        exact List.mem_append.mpr (Or.inl hid)

/-- The incoming item's id is recorded under the role. -/
theorem addOneItemToChart_mem_role (s : ParserState) (role : Role)
    (it0 : ActiveItem) :
    ((lookupItem s it0.id).getD it0).id ∈
      roleIds (addOneItemToChart s role it0) role := by
  unfold addOneItemToChart
  set itv := (lookupItem s it0.id).getD it0 with hitv
  set s1 : ParserState := { s with all_items := aSet s.all_items itv.id itv } with hs1
  set dup := (roleIds s1 role).any (fun j =>
    match lookupItem s1 j with
    | some x => itemBeq x itv
    | none => false) with hdup
  set itf := if dup then { itv with ignored := true } else itv with hitf
  set s2 : ParserState := { s1 with all_items := aSet s1.all_items itv.id itf } with hs2
  by_cases hc : (roleIds s2 role).contains itv.id
  · rw [if_pos hc]
    simpa using hc
  · rw [if_neg hc, roleIds_setRoleIds]
    exact List.mem_append.mpr (Or.inr (by simp))

theorem add_items_to_chart_stepOk (s : ParserState) (items : List ActiveItem)
    (role : Role) : stepOk s (add_items_to_chart s items role) := by
  unfold add_items_to_chart
  exact stepOk_foldl id (fun s it => addOneItemToChart s role it)
    (fun b a => addOneItemToChart_stepOk b role a) items s

theorem add_active_items_to_chart_stepOk (s : ParserState)
    (items : List ActiveItem) : stepOk s (add_active_items_to_chart s items).2 := by
  unfold add_active_items_to_chart
  exact add_items_to_chart_stepOk _ _ _

theorem add_item_to_prediction_strategy_stepOk (s : ParserState)
    (strategySet : List String) :
    stepOk s (add_item_to_prediction_strategy s strategySet) := by
  unfold add_item_to_prediction_strategy
  by_cases h : strategySet.any (fun x => x != "" && !s.terminals.contains x)
  · rw [if_pos h]
    refine ⟨fun hk => hk, fun _ => ?_⟩
    refine ⟨rfl, rfl, rfl, rfl, rulesLe_refl _, itemsLe_refl _, ?_,
      ⟨[], by simp⟩, ⟨[], by simp⟩, ⟨[], by simp⟩, fun id h => Or.inl h⟩
    exact addStrs_append strategySet s.prediction_strategy
  · rw [if_neg h]
    exact stepOk_refl s

theorem erase_active_stepOk (s : ParserState) (idr : Nat)
    (hmem : idr ∈ s.completed_ids) :
    stepOk s { s with active_ids := s.active_ids.erase idr } := by
  refine ⟨fun hk => hk, fun _ => ?_⟩
  refine ⟨rfl, rfl, rfl, rfl, rulesLe_refl _, itemsLe_refl _,
    ⟨[], by simp⟩, ⟨[], by simp⟩, ⟨[], by simp⟩, ⟨[], by simp⟩, ?_⟩
  intro id hid
  by_cases hd : id = idr
  · right
    exact hd ▸ hmem
  · left
    exact List.mem_erase_of_ne hd |>.mpr hid

/-- The id of a member of the completed role after the insertion it just
went through.  Needed for the pop performed by
`add_completed_items_to_chart`. -/
theorem addOneItemToChart_mem_role_id (s : ParserState) (role : Role)
    (it0 : ActiveItem) (hk : keysMatch s) :
    it0.id ∈ roleIds (addOneItemToChart s role it0) role := by
  have h := addOneItemToChart_mem_role s role it0
  have : ((lookupItem s it0.id).getD it0).id = it0.id := by
    cases hlv : lookupItem s it0.id with
    | none => rfl
    | some x =>
      have := hk (it0.id, x) (aLookup_mem _ _ _ hlv)
      simpa using this
  rwa [this] at h

theorem add_completed_one_stepOk (s : ParserState) (it : ActiveItem) :
    stepOk s (add_completed_one s it) := by
  unfold add_completed_one
  by_cases h : it.dot_position.1 == it.vector_binding.length
  · rw [if_pos h]
    have h1 := add_items_to_chart_stepOk s [it] .completed
    constructor
    · intro hk
      exact h1.1 hk
    · intro hk
      have hkA : keysMatch (add_items_to_chart s [it] .completed) := h1.1 hk
      have hmem : it.id ∈ (add_items_to_chart s [it] .completed).completed_ids := by
        show it.id ∈ roleIds (add_items_to_chart s [it] .completed) .completed
        have heq : add_items_to_chart s [it] .completed =
            addOneItemToChart s .completed it := by
          unfold add_items_to_chart
          rw [List.foldl_cons, List.foldl_nil]
        rw [heq]
        exact addOneItemToChart_mem_role_id s .completed it hk
      exact frameLe_trans (h1.2 hk)
        ((erase_active_stepOk (add_items_to_chart s [it] .completed) it.id hmem).2 hkA)
  · rw [if_neg h]
    exact stepOk_refl s

theorem add_completed_items_to_chart_stepOk (s : ParserState)
    (items : List ActiveItem) :
    stepOk s (add_completed_items_to_chart s items).2 := by
  unfold add_completed_items_to_chart
  exact stepOk_trans
    (stepOk_foldl id add_completed_one (fun b a => add_completed_one_stepOk b a)
      (filter_out_non_compatible_items s items) s)
    (add_items_to_chart_stepOk _ _ _)

theorem get?_set_self {α : Type _} (l : List α) (i : Nat) (a : α)
    (h : i < l.length) : (l.set i a).get? i = some a := by
  induction l generalizing i with
  | nil => simp at h
  | cons x xs ih =>
    cases i with
    | zero => rfl
    | succ n =>
      show (xs.set n a).get? n = some a
      exact ih n (by simpa using h)

theorem get?_set_ne {α : Type _} (l : List α) (i j : Nat) (a : α)
    (h : j ≠ i) : (l.set i a).get? j = l.get? j := by
  induction l generalizing i j with
  | nil => rfl
  | cons x xs ih =>
    cases i with
    | zero =>
      cases j with
      | zero => exact absurd rfl h
      | succ m => rfl
    | succ n =>
      cases j with
      | zero => rfl
      | succ m =>
        show (xs.set n a).get? m = xs.get? m
        exact ih n m (fun hh => h (by rw [hh]))

theorem lt_length_of_get?_some {α : Type _} {l : List α} {i : Nat} {a : α}
    (h : l.get? i = some a) : i < l.length := by
  by_contra hge
  rw [List.get?_eq_none.mpr (Nat.le_of_not_lt hge)] at h
  exact absurd h (by simp)

/-- Setting a rule's `used` flag is a frame-respecting step. -/
theorem set_used_stepOk (s : ParserState) (i : Nat) (rule : MCFGRule)
    (hm : s.rules.get? i = some rule) :
    stepOk s { s with rules := s.rules.set i { rule with used := true } } := by
  refine ⟨fun hk => hk, fun _ => ?_⟩
  refine ⟨rfl, rfl, rfl, rfl, ?_, itemsLe_refl _, ⟨[], by simp⟩, ⟨[], by simp⟩,
    ⟨[], by simp⟩, ⟨[], by simp⟩, fun id h => Or.inl h⟩
  refine ⟨List.length_set .., fun j r0 hj => ?_⟩
  by_cases hji : j = i
  · subst hji
    have : r0 = rule := by
      rw [hm] at hj
      exact (Option.some.inj hj).symm
    subst this
    refine ⟨{ r0 with used := true }, ?_, rfl, fun _ => rfl⟩
    exact get?_set_self _ _ _ (lt_length_of_get?_some hm)
  · refine ⟨r0, ?_, rfl, fun h => h⟩
    rw [get?_set_ne _ _ _ _ hji]
    exact hj

/-- Bumping the item counter is a frame-respecting step. -/
theorem counter_stepOk (s : ParserState) (n : Nat) :
    stepOk s { s with counter := n } :=
  ⟨fun hk => hk, fun _ => ⟨rfl, rfl, rfl, rfl, rulesLe_refl _, itemsLe_refl _,
    ⟨[], by simp⟩, ⟨[], by simp⟩, ⟨[], by simp⟩, ⟨[], by simp⟩,
    fun id h => Or.inl h⟩⟩

theorem predict_order_step_stepOk (sym : String) (tidx : Nat) (rule : MCFGRule)
    (vb : List (List String)) (acc : List ActiveItem × ParserState)
    (ord : List Nat) :
    stepOk acc.2 (predict_order_step sym tidx rule vb acc ord).2 := by
  unfold predict_order_step
  exact counter_stepOk _ _

theorem predict_rule_stepOk (token : String) (tidx : Nat) (sym : String)
    (acc : List ActiveItem × ParserState) (i : Nat) :
    stepOk acc.2 (predict_rule token tidx sym acc i).2 := by
  unfold predict_rule
  cases hm : acc.2.rules.get? i with
  | none => exact stepOk_refl _
  | some rule =>
    simp only []
    by_cases hu : rule.used
    · rw [if_pos hu]
      exact stepOk_refl _
    · rw [if_neg hu]
      by_cases hp : acc.2.terminals.contains
          (((predict_binding_orders acc.2.terminals rule).1.getD 0 []).getD 0 "") &&
          ((predict_binding_orders acc.2.terminals rule).1.getD 0 []).getD 0 "" != token
      · rw [if_pos hp]
        exact stepOk_refl _
      · rw [if_neg hp]
        refine stepOk_trans (set_used_stepOk acc.2 i rule hm)
          (stepOk_trans
            (add_item_to_prediction_strategy_stepOk
              { acc.2 with rules := acc.2.rules.set i { rule with used := true } }
              (dedupStrs rule.vars)) ?_)
        exact stepOk_foldl Prod.snd
          (predict_order_step sym tidx rule
            (predict_binding_orders acc.2.terminals rule).1)
          (fun b a => predict_order_step_stepOk _ _ _ _ b a)
          (predict_binding_orders acc.2.terminals rule).2
          (acc.1, add_item_to_prediction_strategy
            { acc.2 with rules := acc.2.rules.set i { rule with used := true } }
            (dedupStrs rule.vars))

theorem predict_symbol_stepOk (token : String) (tidx : Nat)
    (acc : List ActiveItem × ParserState) (sym : String) :
    stepOk acc.2 (predict_symbol token tidx acc sym).2 := by
  unfold predict_symbol
  exact stepOk_foldl Prod.snd (predict_rule token tidx sym)
    (fun b a => predict_rule_stepOk token tidx sym b a) _ acc

theorem do_predict_stepOk (s : ParserState) (token : String) (tidx : Nat)
    (strategy : List String) : stepOk s (do_predict s token tidx strategy).2 := by
  unfold do_predict
  exact stepOk_foldl Prod.snd (predict_symbol token tidx)
    (fun b a => predict_symbol_stepOk token tidx b a) strategy ([], s)

theorem do_scan_stepOk (s : ParserState) (activeId : Nat) (token : String)
    (tidx : Nat) : stepOk s (do_scan s activeId token tidx).2 := by
  unfold do_scan
  cases hl : lookupItem s activeId with
  | none => exact stepOk_refl _
  | some it =>
    simp only []
    by_cases h1 : it.token_index > tidx
    · rw [if_pos h1]
      exact stepOk_refl _
    · rw [if_neg h1]
      by_cases h2 : it.scanned
      · rw [if_pos h2]
        exact stepOk_refl _
      · rw [if_neg h2]
        cases hg : get_symbol_after_dot it with
        | none => exact stepOk_refl _
        | some sym =>
          simp only []
          by_cases h3 : sym == token
          · rw [if_pos h3]
            -- the state is: counter bumped, the scanned flag set, counter
            -- possibly bumped again
            have hmark : stepOk s { (freshId s).2 with
                all_items := aSet (freshId s).2.all_items activeId
                  { it with scanned := true } } := by
              refine stepOk_trans (counter_stepOk s (s.counter + 1)) ?_
              refine ⟨?_, ?_⟩
              · intro hk p hp
                have hp' : p ∈ aSet s.all_items activeId { it with scanned := true } := hp
                rcases mem_aSet _ _ _ p hp' with h | h
                · exact hk p h
                · rw [h]
                  show it.id = activeId
                  have := hk (activeId, it) (aLookup_mem _ _ _ hl)
                  simpa using this
              · intro _
                refine ⟨rfl, rfl, rfl, rfl, rulesLe_refl _, ?_,
                  ⟨[], by simp [freshId]⟩, ⟨[], by simp [freshId]⟩,
                  ⟨[], by simp [freshId]⟩, ⟨[], by simp [freshId]⟩,
                  fun id h => Or.inl h⟩
                intro k it2 hlk
                have hlk' : aLookup s.all_items k = some it2 := hlk
                by_cases hkk : k = activeId
                · subst hkk
                  have hl' : aLookup s.all_items k = some it := hl
                  have hit2 : it2 = it := by
                    have := hl'.symm.trans hlk'
                    exact (Option.some.inj this).symm
                  subst hit2
                  refine ⟨{ it2 with scanned := true }, ?_, rfl, fun _ => rfl,
                    fun h => h⟩
                  show aLookup (aSet s.all_items k { it2 with scanned := true }) k =
                    some { it2 with scanned := true }
                  exact aLookup_aSet_self _ _ _
                · refine ⟨it2, ?_, rfl, fun h => h, fun h => h⟩
                  show aLookup (aSet s.all_items activeId
                    { it with scanned := true }) k = some it2
                  rw [aLookup_aSet_ne _ _ _ _ hkk]
                  exact hlk'
            by_cases h4 : (get_next_dot_position_and_check_if_complete it false).2
            · rw [if_pos h4]
              exact stepOk_trans hmark (counter_stepOk _ _)
            · rw [if_neg h4]
              exact hmark
          · rw [if_neg h3]
            exact stepOk_refl _

theorem memo_stepOk (s : ParserState) (c : Nat × Nat) :
    stepOk s { s with combined_couples := s.combined_couples ++ [c] } :=
  ⟨fun hk => hk, fun _ => ⟨rfl, rfl, rfl, rfl, rulesLe_refl _, itemsLe_refl _,
    ⟨[], by simp⟩, ⟨[c], rfl⟩, ⟨[], by simp⟩, ⟨[], by simp⟩,
    fun id h => Or.inl h⟩⟩

theorem combine_candidate_stepOk (completedId tidx compsLen : Nat)
    (value : String) (acc : (List ActiveItem × List ActiveItem) × ParserState)
    (cid : Nat) :
    stepOk acc.2 (combine_candidate completedId tidx compsLen value acc cid).2 := by
  unfold combine_candidate
  cases hl : lookupItem acc.2 cid with
  | none => exact stepOk_refl _
  | some c =>
    simp only []
    by_cases h1 : c.token_index > tidx
    · rw [if_pos h1]
      exact stepOk_refl _
    · rw [if_neg h1]
      by_cases h2 : couple_combined acc.2 (cid, completedId)
      · rw [if_pos h2]
        exact stepOk_refl _
      · rw [if_neg h2]
        refine stepOk_trans (memo_stepOk acc.2 (cid, completedId)) ?_
        by_cases h3 : !(get_all_completed_components_and_values c).isEmpty &&
            compsLen > 1
        · rw [if_pos h3]
          exact stepOk_refl _
        · rw [if_neg h3]
          by_cases h4 : (get_next_dot_position_and_check_if_complete c false).2
          · rw [if_pos h4]
            exact stepOk_trans (counter_stepOk _ _) (counter_stepOk _ _)
          · rw [if_neg h4]
            exact counter_stepOk _ _

theorem combine_key_stepOk (completedId tidx compsLen : Nat)
    (activeSnap : List Nat)
    (acc : (List ActiveItem × List ActiveItem) × ParserState)
    (kv : String × List String) :
    stepOk acc.2 (combine_key completedId tidx compsLen activeSnap acc kv).2 := by
  unfold combine_key
  exact stepOk_foldl Prod.snd
    (combine_candidate completedId tidx compsLen (joinSpace kv.2))
    (fun b a => combine_candidate_stepOk _ _ _ _ b a) _ acc

theorem do_combine_stepOk (s : ParserState) (completedId tidx : Nat)
    (activeSnap : List Nat) :
    stepOk s (do_combine s completedId tidx activeSnap).2 := by
  unfold do_combine
  cases lookupItem s completedId with
  | none => exact stepOk_refl _
  | some donor =>
    exact stepOk_foldl Prod.snd
      (combine_key completedId tidx
        (get_all_completed_components_and_values donor).length activeSnap)
      (fun b a => combine_key_stepOk _ _ _ _ b a) _ (([], []), s)

theorem runPredictAdd_stepOk (s : ParserState) (token : String) (tidx : Nat)
    (strategy : List String) : stepOk s (runPredictAdd s token tidx strategy).2 := by
  unfold runPredictAdd
  exact stepOk_trans (do_predict_stepOk s token tidx strategy)
    (add_active_items_to_chart_stepOk _ _)

theorem runScanAdd_stepOk (s : ParserState) (activeId : Nat) (token : String)
    (tidx : Nat) : stepOk s (runScanAdd s activeId token tidx).2 := by
  unfold runScanAdd
  exact stepOk_trans (do_scan_stepOk s activeId token tidx)
    (stepOk_trans (add_active_items_to_chart_stepOk _ _)
      (stepOk_trans (add_active_items_to_chart_stepOk _ _)
        (add_completed_items_to_chart_stepOk _ _)))

theorem runCombineAdd_stepOk (s : ParserState) (completedId tidx : Nat)
    (activeSnap : List Nat) :
    stepOk s (runCombineAdd s completedId tidx activeSnap).2 := by
  unfold runCombineAdd
  exact stepOk_trans (do_combine_stepOk s completedId tidx activeSnap)
    (stepOk_trans (add_active_items_to_chart_stepOk _ _)
      (stepOk_trans (add_active_items_to_chart_stepOk _ _)
        (add_completed_items_to_chart_stepOk _ _)))

theorem combine_sweep_step_stepOk (index : Nat) (snap : List Nat)
    (b : Bool × ParserState) (did : Nat) :
    stepOk b.2 (combine_sweep_step index snap b did).2 :=
  runCombineAdd_stepOk b.2 did index snap

theorem scan_sweep_step_stepOk (token : String) (index : Nat)
    (b : Bool × ParserState) (aid : Nat) :
    stepOk b.2 (scan_sweep_step token index b aid).2 :=
  runScanAdd_stepOk b.2 aid token index

theorem sweep_stepOk (s : ParserState) (token : String) (index : Nat) :
    stepOk s (sweep s token index).2 :=
  stepOk_trans (runPredictAdd_stepOk s token index s.prediction_strategy)
    (stepOk_trans
      (stepOk_foldl Prod.snd
        (combine_sweep_step index
          (nonIgnoredIds (runPredictAdd s token index s.prediction_strategy).2
            .active))
        (fun b a => combine_sweep_step_stepOk index _ b a)
        (nonIgnoredIds (runPredictAdd s token index s.prediction_strategy).2
          .completedComp)
        (false, (runPredictAdd s token index s.prediction_strategy).2))
      (stepOk_foldl Prod.snd (scan_sweep_step token index)
        (fun b a => scan_sweep_step_stepOk token index b a)
        (nonIgnoredIds (List.foldl
          (combine_sweep_step index
            (nonIgnoredIds (runPredictAdd s token index s.prediction_strategy).2
              .active))
          (false, (runPredictAdd s token index s.prediction_strategy).2)
          (nonIgnoredIds (runPredictAdd s token index s.prediction_strategy).2
            .completedComp)).2 .active)
        (false, (List.foldl
          (combine_sweep_step index
            (nonIgnoredIds (runPredictAdd s token index s.prediction_strategy).2
              .active))
          (false, (runPredictAdd s token index s.prediction_strategy).2)
          (nonIgnoredIds (runPredictAdd s token index s.prediction_strategy).2
            .completedComp)).2)))

theorem sweepLoop_stepOk (fuel : Nat) :
    ∀ (s : ParserState) (token : String) (index : Nat),
    stepOk s (sweepLoop fuel s token index) := by
  induction fuel with
  | zero => intro s token index; exact stepOk_refl _
  | succ n ih =>
    intro s token index
    show stepOk s (if (sweep s token index).1 then
      sweepLoop n (sweep s token index).2 token index else (sweep s token index).2)
    by_cases h : (sweep s token index).1
    · rw [if_pos h]
      exact stepOk_trans (sweep_stepOk s token index) (ih _ token index)
    · rw [if_neg h]
      exact sweep_stepOk s token index

theorem run_incremental_stepOk (s : ParserState) (token : String) (index : Nat)
    (fuel : Nat) : stepOk s (run_incremental s token index fuel) := by
  unfold run_incremental
  by_cases h : index == 0
  · rw [if_pos h]
    exact stepOk_trans (runPredictAdd_stepOk s token 0 [s.start_symbol])
      (sweepLoop_stepOk fuel _ token index)
  · rw [if_neg h]
    exact sweepLoop_stepOk fuel _ token index

theorem parseLoop_stepOk (s : ParserState) (stages : List (Nat × String))
    (fuel : Nat) : stepOk s (parseLoop s stages fuel).1 := by
  unfold parseLoop
  exact stepOk_foldl (fun acc => acc.1) (parse_stage_step fuel)
    (fun b a => run_incremental_stepOk b.1 a.2 a.1 fuel) stages (s, none)

theorem keysMatch_initState (g : MCFG) (text : String) :
    keysMatch (initState g text) := by
  intro p hp
  simp [initState] at hp

/-- C8 (counterexample): `parse` does mutate the grammar — after parsing
"a" with the grammar S->h(A), h([A])=[A(0) a], A->'a'|f4(B), f4([B])=[B(0)],
B->'a', some rule of the parser state has its `used` flag set although every
rule started with `used` clear; moreover some id in the completed role is no
longer in the active role, witnessing that completed items are popped from
the active collection rather than the role collections being append-only. -/
theorem c8_counterexample_grammar_mutated :
    ((initState c7G "a").rules.all (fun r => !r.used)) = true ∧
    ((parseFinalState c7G "a" 40).rules.any (fun r => r.used)) = true ∧
    ((parseFinalState c7G "a" 40).completed_ids.any (fun i =>
      !((parseFinalState c7G "a" 40).active_ids.contains i))) = true := by
  decide

/-- C8 (amended): over an entire parse, the environment fields (start
symbol, terminals, tokens, text) are unchanged, the grammar's rules change
at most in their sticky `used` flags (same length, same core rule at every
position, `used` only ever turned on), every stored item survives under its
key changed at most in its monotonic `scanned` and `ignored` flags, the
prediction frontier, the combine memo and the completed role collections
only grow by appending, and every active id either remains active or moves
to the completed role. -/
theorem c8_mutation_discipline_amended (g : MCFG) (text : String)
    (fuel : Nat) : frameLe (initState g text) (parseFinalState g text fuel) :=
  (parseLoop_stepOk (initState g text) (splitOnSpace text).enum fuel).2
    (keysMatch_initState g text)

/-! ## Claim C1: success characterization of `parse` -/

/-- The parser state after the first `n` stages of the token loop. -/
def stageState (g : MCFG) (text : String) (fuel n : Nat) : ParserState :=
  (parseLoop (initState g text) (((splitOnSpace text).enum).take n) fuel).1

theorem splitCharsOn_ne_nil (sep : Char) (l : List Char) :
    splitCharsOn sep l ≠ [] := by
  cases l with
  | nil => simp [splitCharsOn]
  | cons c cs =>
    show (if c == sep then [] :: splitCharsOn sep cs
      else match splitCharsOn sep cs with
        | [] => [[c]]
        | g :: gs => (c :: g) :: gs) ≠ []
    by_cases h : (c == sep) = true
    · rw [if_pos h]; simp
    · rw [if_neg h]
      cases splitCharsOn sep cs with
      | nil => simp
      | cons g gs => simp

theorem splitOnSpace_ne_nil (s : String) : splitOnSpace s ≠ [] := by
  unfold splitOnSpace
  intro h
  exact splitCharsOn_ne_nil ' ' s.data (by simpa using h)

/-- Once the `successful_parsing_item` accumulator holds an item, it holds
one for the rest of the token loop. -/
theorem goal_isSome_mono (fuel : Nat) :
    ∀ (l : List (Nat × String)) (p : ParserState × Option ActiveItem),
    p.2.isSome = true → (l.foldl (parse_stage_step fuel) p).2.isSome = true := by
  intro l
  induction l with
  | nil => intro p h; exact h
  | cons st rest ih =>
    intro p h
    show (rest.foldl (parse_stage_step fuel) (parse_stage_step fuel p st)).2.isSome
      = true
    apply ih
    show (match find_goal (run_incremental p.1 st.2 st.1 fuel) with
      | some g => some g
      | none => p.2).isSome = true
    cases find_goal (run_incremental p.1 st.2 st.1 fuel) with
    | none => exact h
    | some g => rfl

/-- If the token loop ends with a recorded goal item, it either started with
it or some stage's `find_goal` returned exactly that item. -/
theorem parseLoop_goal_found (fuel : Nat) :
    ∀ (l : List (Nat × String)) (p : ParserState × Option ActiveItem)
      (it : ActiveItem),
    (l.foldl (parse_stage_step fuel) p).2 = some it →
    p.2 = some it ∨ ∃ n, 0 < n ∧ n ≤ l.length ∧
      find_goal ((l.take n).foldl (parse_stage_step fuel) p).1 = some it := by
  intro l
  induction l with
  | nil => intro p it h; exact Or.inl h
  | cons st rest ih =>
    intro p it h
    have h' : (rest.foldl (parse_stage_step fuel)
        (parse_stage_step fuel p st)).2 = some it := h
    rcases ih (parse_stage_step fuel p st) it h' with hbase | ⟨n, hn0, hnle, hfind⟩
    · have h2 : (match find_goal (run_incremental p.1 st.2 st.1 fuel) with
          | some g => some g
          | none => p.2) = some it := hbase
      cases hfg : find_goal (run_incremental p.1 st.2 st.1 fuel) with
      | some g =>
        rw [hfg] at h2
        refine Or.inr ⟨1, Nat.one_pos, Nat.succ_le_succ (Nat.zero_le _), ?_⟩
        show find_goal (run_incremental p.1 st.2 st.1 fuel) = some it
        rw [hfg]; exact h2
      | none =>
        rw [hfg] at h2
        exact Or.inl h2
    · refine Or.inr ⟨n + 1, Nat.succ_pos _, Nat.succ_le_succ hnle, ?_⟩
      show find_goal ((rest.take n).foldl (parse_stage_step fuel)
        (parse_stage_step fuel p st)).1 = some it
      exact hfind

/-- If `find_goal` succeeds at some stage of the token loop, the loop ends
with a recorded goal item. -/
theorem parseLoop_goal_reaches (fuel : Nat) :
    ∀ (l : List (Nat × String)) (p : ParserState × Option ActiveItem) (n : Nat),
    0 < n → n ≤ l.length →
    (find_goal ((l.take n).foldl (parse_stage_step fuel) p).1).isSome = true →
    (l.foldl (parse_stage_step fuel) p).2.isSome = true := by
  intro l
  induction l with
  | nil =>
    intro p n hn0 hnle _
    exact absurd (Nat.lt_of_lt_of_le hn0 hnle) (lt_irrefl 0)
  | cons st rest ih =>
    intro p n hn0 hnle hfind
    cases n with
    | zero => exact absurd hn0 (lt_irrefl 0)
    | succ m =>
      cases m with
      | zero =>
        have hf : (find_goal (run_incremental p.1 st.2 st.1 fuel)).isSome
            = true := hfind
        show (rest.foldl (parse_stage_step fuel)
          (parse_stage_step fuel p st)).2.isSome = true
        apply goal_isSome_mono
        show (match find_goal (run_incremental p.1 st.2 st.1 fuel) with
          | some g => some g
          | none => p.2).isSome = true
        cases hfg : find_goal (run_incremental p.1 st.2 st.1 fuel) with
        | none => rw [hfg] at hf; simp at hf
        | some g => rfl
      | succ k =>
        have hfind' : (find_goal ((rest.take (k + 1)).foldl
            (parse_stage_step fuel) (parse_stage_step fuel p st)).1).isSome
            = true := hfind
        show (rest.foldl (parse_stage_step fuel)
          (parse_stage_step fuel p st)).2.isSome = true
        exact ih (parse_stage_step fuel p st) (k + 1) (Nat.succ_pos _)
          (Nat.le_of_succ_le_succ hnle) hfind'

/-- The environment fields of a stage state match the initial state. -/
theorem stageState_env (g : MCFG) (text : String) (fuel n : Nat) :
    (stageState g text fuel n).start_symbol = g.start_symbol ∧
    (stageState g text fuel n).text = text := by
  have h := (parseLoop_stepOk (initState g text)
    (((splitOnSpace text).enum).take n) fuel).2 (keysMatch_initState g text)
  exact ⟨h.1, h.2.2.2.1⟩

/-- What a successful `find_goal` says about the found item. -/
theorem find_goal_spec (s : ParserState) (it : ActiveItem)
    (h : find_goal s = some it) :
    it ∈ get_items_list s Role.completed ∧ it.symbol = s.start_symbol ∧
    joinSpace it.found_sequence = s.text := by
  have hmem := List.mem_of_find?_eq_some h
  have hp := List.find?_some h
  simp only [Bool.and_eq_true, beq_iff_eq] at hp
  exact ⟨hmem, hp.1, hp.2⟩

/-- A completed-role item on the start symbol matching the text makes
`find_goal` succeed. -/
theorem find_goal_of_mem (s : ParserState) (it : ActiveItem)
    (hmem : it ∈ get_items_list s Role.completed)
    (hsym : it.symbol = s.start_symbol)
    (htext : joinSpace it.found_sequence = s.text) :
    (find_goal s).isSome = true := by
  cases hfg : find_goal s with
  | some g => rfl
  | none =>
    exfalso
    have hnone := List.find?_eq_none.mp hfg it hmem
    apply hnone
    simp [hsym, htext]

theorem get_items_list_initState (g : MCFG) (text : String) :
    get_items_list (initState g text) Role.completed = [] := rfl

/-- C1: `parse` returns a parsing table exactly when, after some stage of
the token loop, the completed role holds an item on the grammar's start
symbol whose space-joined `found_sequence` equals the input text; and
whenever `parse` returns a trace, it is the parsing table of the recorded
goal item, whose space-joined `found_sequence` equals the input text. -/
theorem c1_parse_success_characterization (g : MCFG) (text : String)
    (fuel : Nat) :
    ((parse g text fuel).isSome = true ↔
      ∃ n it, it ∈ get_items_list (stageState g text fuel n) Role.completed ∧
        it.symbol = g.start_symbol ∧ joinSpace it.found_sequence = text) ∧
    (∀ t, parse g text fuel = some t →
      ∃ it, (parseLoop (initState g text) ((splitOnSpace text).enum) fuel).2
          = some it ∧
        it.symbol = g.start_symbol ∧ joinSpace it.found_sequence = text ∧
        t = get_parsing_table (parseFinalState g text fuel).all_items
          it.id fuel) := by
  have hb : (parse g text fuel).isSome =
      ((parseLoop (initState g text) ((splitOnSpace text).enum) fuel).2).isSome := by
    show (match (parseLoop (initState g text) ((splitOnSpace text).enum)
        fuel).2 with
      | some it => some (get_parsing_table (parseLoop (initState g text)
          ((splitOnSpace text).enum) fuel).1.all_items it.id fuel)
      | none => none).isSome = _
    cases (parseLoop (initState g text) ((splitOnSpace text).enum) fuel).2 with
    | some it => rfl
    | none => rfl
  constructor
  · constructor
    · intro hs
      rw [hb] at hs
      obtain ⟨it, hit⟩ := Option.isSome_iff_exists.mp hs
      rcases parseLoop_goal_found fuel ((splitOnSpace text).enum)
          (initState g text, none) it hit with hbase | ⟨n, _, _, hfind⟩
      · exact absurd hbase (by simp)
      · obtain ⟨hmem, hsym, htext⟩ := find_goal_spec _ _ hfind
        obtain ⟨hss, hst⟩ := stageState_env g text fuel n
        exact ⟨n, it, hmem, by rw [← hss]; exact hsym,
          by rw [← hst]; exact htext⟩
    · rintro ⟨n, it, hmem, hsym, htext⟩
      rw [hb]
      obtain ⟨hss, hst⟩ := stageState_env g text fuel n
      have hf : (find_goal (stageState g text fuel n)).isSome = true :=
        find_goal_of_mem _ it hmem (by rw [hss]; exact hsym)
          (by rw [hst]; exact htext)
      cases n with
      | zero =>
        exfalso
        rw [show stageState g text fuel 0 =
          initState g text from rfl] at hmem
        rw [get_items_list_initState] at hmem
        simp at hmem
      | succ m =>
        have hlen : 0 < ((splitOnSpace text).enum).length := by
          rw [List.enum_length]
          exact List.length_pos.mpr (splitOnSpace_ne_nil text)
        by_cases hle : m + 1 ≤ ((splitOnSpace text).enum).length
        · exact parseLoop_goal_reaches fuel ((splitOnSpace text).enum)
            (initState g text, none) (m + 1) (Nat.succ_pos _) hle hf
        · have hge : ((splitOnSpace text).enum).length ≤ m + 1 :=
            Nat.le_of_lt (Nat.lt_of_not_le hle)
          have htake : ((splitOnSpace text).enum).take (m + 1) =
              (splitOnSpace text).enum := List.take_of_length_le hge
          have hf' : (find_goal ((((splitOnSpace text).enum).take
              (((splitOnSpace text).enum).length)).foldl
              (parse_stage_step fuel) (initState g text, none)).1).isSome
              = true := by
            rw [List.take_length]
            rw [← htake]
            exact hf
          exact parseLoop_goal_reaches fuel ((splitOnSpace text).enum)
            (initState g text, none) ((splitOnSpace text).enum).length
            hlen (Nat.le_refl _) hf'
  · intro t ht
    have ht' : (match (parseLoop (initState g text) ((splitOnSpace text).enum)
        fuel).2 with
      | some it => some (get_parsing_table (parseLoop (initState g text)
          ((splitOnSpace text).enum) fuel).1.all_items it.id fuel)
      | none => none) = some t := ht
    cases hr2 : (parseLoop (initState g text) ((splitOnSpace text).enum)
        fuel).2 with
    | none => rw [hr2] at ht'; exact absurd ht' (by simp)
    | some it =>
      rw [hr2] at ht'
      have hteq : t = get_parsing_table (parseFinalState g text fuel).all_items
          it.id fuel := by
        have := Option.some.inj ht'
        exact this.symm
      rcases parseLoop_goal_found fuel ((splitOnSpace text).enum)
          (initState g text, none) it hr2 with hbase | ⟨n, _, _, hfind⟩
      · exact absurd hbase (by simp)
      · obtain ⟨_, hsym, htext⟩ := find_goal_spec _ _ hfind
        obtain ⟨hss, hst⟩ := stageState_env g text fuel n
        exact ⟨it, rfl, by rw [← hss]; exact hsym,
          by rw [← hst]; exact htext, hteq⟩

/-! ## Claim C4: the compatibility filter and the chart invariant -/

/-- Every stored item is compatible (`compatibleItem`) with the given
terminals and original text. -/
def chartCompat (T : List String) (X : String) (s : ParserState) : Prop :=
  ∀ p ∈ s.all_items, compatibleItem T X p.2 = true

/-- The running invariant for C4: the engine invariant `keysMatch`, the
fixed environment fields and compatibility of every stored item. -/
def chartInv (T : List String) (X : String) (s : ParserState) : Prop :=
  keysMatch s ∧ s.terminals = T ∧ joinSpace s.tokens = X ∧ chartCompat T X s

theorem chartCompat_of_all_items_eq (T : List String) (X : String)
    (s s' : ParserState) (h : s'.all_items = s.all_items)
    (hs : chartCompat T X s) : chartCompat T X s' := by
  intro p hp
  rw [h] at hp
  exact hs p hp

theorem chartInv_env (T : List String) (X : String) {s s' : ParserState}
    (h : stepOk s s') (hinv : chartInv T X s) :
    keysMatch s' ∧ s'.terminals = T ∧ joinSpace s'.tokens = X := by
  obtain ⟨hk, hT, hX, _⟩ := hinv
  have hk' := h.1 hk
  have hf := h.2 hk
  exact ⟨hk', hf.2.1.trans hT, by rw [hf.2.2.1]; exact hX⟩

theorem foldl_all_items_eq {α β : Type _} (π : β → ParserState) (f : β → α → β)
    (h : ∀ b a, (π (f b a)).all_items = (π b).all_items) :
    ∀ (l : List α) (b : β), (π (l.foldl f b)).all_items = (π b).all_items := by
  intro l
  induction l with
  | nil => intro b; rfl
  | cons a rest ih =>
    intro b
    rw [List.foldl_cons, ih (f b a), h b a]

theorem add_item_to_prediction_strategy_all_items (s : ParserState)
    (strategySet : List String) :
    (add_item_to_prediction_strategy s strategySet).all_items = s.all_items := by
  unfold add_item_to_prediction_strategy
  split
  · rfl
  · rfl

theorem predict_order_step_all_items (sym : String) (tidx : Nat)
    (rule : MCFGRule) (vb : List (List String))
    (acc : List ActiveItem × ParserState) (ord : List Nat) :
    ((predict_order_step sym tidx rule vb acc ord).2).all_items =
      acc.2.all_items := rfl

theorem predict_rule_all_items (token : String) (tidx : Nat) (sym : String)
    (acc : List ActiveItem × ParserState) (i : Nat) :
    ((predict_rule token tidx sym acc i).2).all_items = acc.2.all_items := by
  unfold predict_rule
  cases hm : acc.2.rules.get? i with
  | none => rfl
  | some rule =>
    simp only []
    split
    · rfl
    · split
      · rfl
      · rw [foldl_all_items_eq Prod.snd
          (predict_order_step sym tidx rule
            (predict_binding_orders acc.2.terminals rule).1)
          (fun b a => predict_order_step_all_items sym tidx rule _ b a)]
        rw [show ((acc.1, add_item_to_prediction_strategy
            { acc.2 with rules := acc.2.rules.set i { rule with used := true } }
            (dedupStrs rule.vars)) :
            List ActiveItem × ParserState).2 = add_item_to_prediction_strategy
            { acc.2 with rules := acc.2.rules.set i { rule with used := true } }
            (dedupStrs rule.vars) from rfl]
        rw [add_item_to_prediction_strategy_all_items]

theorem predict_symbol_all_items (token : String) (tidx : Nat)
    (acc : List ActiveItem × ParserState) (sym : String) :
    ((predict_symbol token tidx acc sym).2).all_items = acc.2.all_items := by
  unfold predict_symbol
  exact foldl_all_items_eq Prod.snd (predict_rule token tidx sym)
    (fun b a => predict_rule_all_items token tidx sym b a) _ acc

theorem do_predict_all_items (s : ParserState) (token : String) (tidx : Nat)
    (strategy : List String) :
    ((do_predict s token tidx strategy).2).all_items = s.all_items := by
  unfold do_predict
  exact foldl_all_items_eq Prod.snd (predict_symbol token tidx)
    (fun b a => predict_symbol_all_items token tidx b a) strategy ([], s)

theorem do_combine_all_items (s : ParserState) (completedId tidx : Nat)
    (activeSnap : List Nat) :
    ((do_combine s completedId tidx activeSnap).2).all_items = s.all_items := by
  unfold do_combine
  cases lookupItem s completedId with
  | none => rfl
  | some donor =>
    exact foldl_all_items_eq Prod.snd
      (combine_key completedId tidx
        (get_all_completed_components_and_values donor).length activeSnap)
      (fun b a => combine_key_all_items _ _ _ _ b a) _ (([], []), s)

theorem addOneItemToChart_chartCompat (T : List String) (X : String)
    (s : ParserState) (role : Role) (it0 : ActiveItem)
    (hs : chartCompat T X s) (h0 : compatibleItem T X it0 = true) :
    chartCompat T X (addOneItemToChart s role it0) := by
  unfold addOneItemToChart
  set itv := (lookupItem s it0.id).getD it0 with hitv
  set s1 : ParserState := { s with all_items := aSet s.all_items itv.id itv }
    with hs1
  set dup := (roleIds s1 role).any (fun j =>
    match lookupItem s1 j with
    | some x => itemBeq x itv
    | none => false) with hdup
  set itf := if dup then { itv with ignored := true } else itv with hitf
  set s2 : ParserState := { s1 with all_items := aSet s1.all_items itv.id itf }
    with hs2
  have hcv : compatibleItem T X itv = true := by
    rw [hitv]
    cases hl : lookupItem s it0.id with
    | none => simpa using h0
    | some stored =>
      have hms := hs (it0.id, stored) (aLookup_mem _ _ _ hl)
      simpa using hms
  have hcf : compatibleItem T X itf = true := by
    rw [hitf]
    by_cases hd : dup = true
    · rw [if_pos hd]
      exact hcv
    · rw [if_neg hd]
      exact hcv
  have hs2compat : chartCompat T X s2 := by
    intro p hp
    have hp2 : p ∈ aSet s1.all_items itv.id itf := hp
    rcases mem_aSet _ _ _ p hp2 with hp1 | hpe
    · have hp1' : p ∈ aSet s.all_items itv.id itv := hp1
      rcases mem_aSet _ _ _ p hp1' with hp0 | hpe0
      · exact hs p hp0
      · rw [hpe0]
        exact hcv
    · rw [hpe]
      exact hcf
  by_cases hc : (roleIds s2 role).contains itv.id
  · rw [if_pos hc]
    exact hs2compat
  · rw [if_neg hc]
    intro p hp
    rw [setRoleIds_all_items] at hp
    exact hs2compat p hp

theorem add_items_to_chart_chartCompat (T : List String) (X : String) :
    ∀ (items : List ActiveItem) (s : ParserState) (role : Role),
    chartCompat T X s → (∀ it ∈ items, compatibleItem T X it = true) →
    chartCompat T X (add_items_to_chart s items role) := by
  intro items
  induction items with
  | nil => intro s role hs _; exact hs
  | cons it rest ih =>
    intro s role hs hall
    exact ih (addOneItemToChart s role it) role
      (addOneItemToChart_chartCompat T X s role it hs
        (hall it (List.mem_cons_self _ _)))
      (fun x hx => hall x (List.mem_cons_of_mem _ hx))

theorem add_active_items_to_chart_chartCompat (T : List String) (X : String)
    (s : ParserState) (items : List ActiveItem)
    (hT : s.terminals = T) (hX : joinSpace s.tokens = X)
    (hs : chartCompat T X s) :
    chartCompat T X (add_active_items_to_chart s items).2 := by
  show chartCompat T X (add_items_to_chart s
    (filter_out_non_compatible_items s items) Role.active)
  apply add_items_to_chart_chartCompat T X _ s Role.active hs
  intro it hit
  have hpit := List.of_mem_filter hit
  rw [hT, hX] at hpit
  exact hpit

theorem add_completed_one_chartCompat (T : List String) (X : String)
    (s : ParserState) (it : ActiveItem)
    (hs : chartCompat T X s) (h0 : compatibleItem T X it = true) :
    chartCompat T X (add_completed_one s it) := by
  unfold add_completed_one
  by_cases hc : (it.dot_position.1 == it.vector_binding.length) = true
  · rw [if_pos hc]
    intro p hp
    have hp' : p ∈ (add_items_to_chart s [it] Role.completed).all_items := hp
    refine add_items_to_chart_chartCompat T X [it] s Role.completed hs ?_ p hp'
    intro x hx
    have hxe : x = it := List.mem_singleton.mp hx
    rw [hxe]
    exact h0
  · rw [if_neg hc]
    exact hs

theorem add_completed_fold_chartCompat (T : List String) (X : String) :
    ∀ (items : List ActiveItem) (s : ParserState),
    chartCompat T X s → (∀ it ∈ items, compatibleItem T X it = true) →
    chartCompat T X (items.foldl add_completed_one s) := by
  intro items
  induction items with
  | nil => intro s hs _; exact hs
  | cons it rest ih =>
    intro s hs hall
    exact ih (add_completed_one s it)
      (add_completed_one_chartCompat T X s it hs
        (hall it (List.mem_cons_self _ _)))
      (fun x hx => hall x (List.mem_cons_of_mem _ hx))

theorem add_completed_items_to_chart_chartCompat (T : List String) (X : String)
    (s : ParserState) (items : List ActiveItem)
    (hT : s.terminals = T) (hX : joinSpace s.tokens = X)
    (hs : chartCompat T X s) :
    chartCompat T X (add_completed_items_to_chart s items).2 := by
  show chartCompat T X (add_items_to_chart
    ((filter_out_non_compatible_items s items).foldl add_completed_one s)
    (filter_out_non_compatible_items s items) Role.completedComp)
  have hfl : ∀ it ∈ filter_out_non_compatible_items s items,
      compatibleItem T X it = true := by
    intro it hit
    have hpit := List.of_mem_filter hit
    rw [hT, hX] at hpit
    exact hpit
  exact add_items_to_chart_chartCompat T X _ _ Role.completedComp
    (add_completed_fold_chartCompat T X _ s hs hfl) hfl

theorem do_scan_chartCompat (T : List String) (X : String) (s : ParserState)
    (activeId : Nat) (token : String) (tidx : Nat)
    (hs : chartCompat T X s) :
    chartCompat T X (do_scan s activeId token tidx).2 := by
  unfold do_scan
  cases hl : lookupItem s activeId with
  | none => exact hs
  | some it =>
    simp only []
    by_cases h1 : it.token_index > tidx
    · rw [if_pos h1]
      exact hs
    · rw [if_neg h1]
      by_cases h2 : it.scanned
      · rw [if_pos h2]
        exact hs
      · rw [if_neg h2]
        cases hg : get_symbol_after_dot it with
        | none => exact hs
        | some sym =>
          simp only []
          by_cases h3 : sym == token
          · rw [if_pos h3]
            have hcit : compatibleItem T X it = true := by
              have := hs (activeId, it) (aLookup_mem _ _ _ hl)
              simpa using this
            have hmark : chartCompat T X { (freshId s).2 with
                all_items := aSet (freshId s).2.all_items activeId
                  { it with scanned := true } } := by
              intro p hp
              have hp' : p ∈ aSet s.all_items activeId
                { it with scanned := true } := hp
              rcases mem_aSet _ _ _ p hp' with h | h
              · exact hs p h
              · rw [h]
                exact hcit
            by_cases h4 : (get_next_dot_position_and_check_if_complete it false).2
            · rw [if_pos h4]
              exact hmark
            · rw [if_neg h4]
              exact hmark
          · rw [if_neg h3]
            exact hs

theorem add_active_items_to_chart_chartInv (T : List String) (X : String)
    (s : ParserState) (items : List ActiveItem) (hinv : chartInv T X s) :
    chartInv T X (add_active_items_to_chart s items).2 := by
  obtain ⟨hk', hT', hX'⟩ :=
    chartInv_env T X (add_active_items_to_chart_stepOk s items) hinv
  exact ⟨hk', hT', hX', add_active_items_to_chart_chartCompat T X s items
    hinv.2.1 hinv.2.2.1 hinv.2.2.2⟩

theorem add_completed_items_to_chart_chartInv (T : List String) (X : String)
    (s : ParserState) (items : List ActiveItem) (hinv : chartInv T X s) :
    chartInv T X (add_completed_items_to_chart s items).2 := by
  obtain ⟨hk', hT', hX'⟩ :=
    chartInv_env T X (add_completed_items_to_chart_stepOk s items) hinv
  exact ⟨hk', hT', hX', add_completed_items_to_chart_chartCompat T X s items
    hinv.2.1 hinv.2.2.1 hinv.2.2.2⟩

theorem do_predict_chartInv (T : List String) (X : String) (s : ParserState)
    (token : String) (tidx : Nat) (strategy : List String)
    (hinv : chartInv T X s) :
    chartInv T X (do_predict s token tidx strategy).2 := by
  obtain ⟨hk', hT', hX'⟩ :=
    chartInv_env T X (do_predict_stepOk s token tidx strategy) hinv
  exact ⟨hk', hT', hX', chartCompat_of_all_items_eq T X s _
    (do_predict_all_items s token tidx strategy) hinv.2.2.2⟩

theorem do_scan_chartInv (T : List String) (X : String) (s : ParserState)
    (activeId : Nat) (token : String) (tidx : Nat) (hinv : chartInv T X s) :
    chartInv T X (do_scan s activeId token tidx).2 := by
  obtain ⟨hk', hT', hX'⟩ :=
    chartInv_env T X (do_scan_stepOk s activeId token tidx) hinv
  exact ⟨hk', hT', hX',
    do_scan_chartCompat T X s activeId token tidx hinv.2.2.2⟩

theorem do_combine_chartInv (T : List String) (X : String) (s : ParserState)
    (completedId tidx : Nat) (activeSnap : List Nat) (hinv : chartInv T X s) :
    chartInv T X (do_combine s completedId tidx activeSnap).2 := by
  obtain ⟨hk', hT', hX'⟩ :=
    chartInv_env T X (do_combine_stepOk s completedId tidx activeSnap) hinv
  exact ⟨hk', hT', hX', chartCompat_of_all_items_eq T X s _
    (do_combine_all_items s completedId tidx activeSnap) hinv.2.2.2⟩

theorem runPredictAdd_chartInv (T : List String) (X : String) (s : ParserState)
    (token : String) (tidx : Nat) (strategy : List String)
    (hinv : chartInv T X s) :
    chartInv T X (runPredictAdd s token tidx strategy).2 :=
  add_active_items_to_chart_chartInv T X _ _
    (do_predict_chartInv T X s token tidx strategy hinv)

theorem runScanAdd_chartInv (T : List String) (X : String) (s : ParserState)
    (activeId : Nat) (token : String) (tidx : Nat) (hinv : chartInv T X s) :
    chartInv T X (runScanAdd s activeId token tidx).2 :=
  add_completed_items_to_chart_chartInv T X _ _
    (add_active_items_to_chart_chartInv T X _ _
      (add_active_items_to_chart_chartInv T X _ _
        (do_scan_chartInv T X s activeId token tidx hinv)))

theorem runCombineAdd_chartInv (T : List String) (X : String) (s : ParserState)
    (completedId tidx : Nat) (activeSnap : List Nat) (hinv : chartInv T X s) :
    chartInv T X (runCombineAdd s completedId tidx activeSnap).2 :=
  add_completed_items_to_chart_chartInv T X _ _
    (add_active_items_to_chart_chartInv T X _ _
      (add_active_items_to_chart_chartInv T X _ _
        (do_combine_chartInv T X s completedId tidx activeSnap hinv)))

theorem chartInv_foldl {α β : Type _} (T : List String) (X : String)
    (π : β → ParserState) (f : β → α → β)
    (h : ∀ b a, chartInv T X (π b) → chartInv T X (π (f b a))) :
    ∀ (l : List α) (b : β), chartInv T X (π b) → chartInv T X (π (l.foldl f b)) := by
  intro l
  induction l with
  | nil => intro b hb; exact hb
  | cons a rest ih =>
    intro b hb
    exact ih (f b a) (h b a hb)

theorem sweep_chartInv (T : List String) (X : String) (s : ParserState)
    (token : String) (index : Nat) (hinv : chartInv T X s) :
    chartInv T X (sweep s token index).2 := by
  refine chartInv_foldl T X Prod.snd (scan_sweep_step token index)
    (fun b a hb => runScanAdd_chartInv T X b.2 a token index hb)
    (nonIgnoredIds (List.foldl
      (combine_sweep_step index
        (nonIgnoredIds (runPredictAdd s token index s.prediction_strategy).2
          .active))
      (false, (runPredictAdd s token index s.prediction_strategy).2)
      (nonIgnoredIds (runPredictAdd s token index s.prediction_strategy).2
        .completedComp)).2 .active)
    (false, (List.foldl
      (combine_sweep_step index
        (nonIgnoredIds (runPredictAdd s token index s.prediction_strategy).2
          .active))
      (false, (runPredictAdd s token index s.prediction_strategy).2)
      (nonIgnoredIds (runPredictAdd s token index s.prediction_strategy).2
        .completedComp)).2) ?_
  refine chartInv_foldl T X Prod.snd
    (combine_sweep_step index
      (nonIgnoredIds (runPredictAdd s token index s.prediction_strategy).2
        .active))
    (fun b a hb => runCombineAdd_chartInv T X b.2 a index _ hb)
    (nonIgnoredIds (runPredictAdd s token index s.prediction_strategy).2
      .completedComp)
    (false, (runPredictAdd s token index s.prediction_strategy).2) ?_
  exact runPredictAdd_chartInv T X s token index s.prediction_strategy hinv

theorem sweepLoop_chartInv (T : List String) (X : String) (fuel : Nat) :
    ∀ (s : ParserState) (token : String) (index : Nat), chartInv T X s →
    chartInv T X (sweepLoop fuel s token index) := by
  induction fuel with
  | zero => intro s token index hinv; exact hinv
  | succ n ih =>
    intro s token index hinv
    show chartInv T X (if (sweep s token index).1 then
      sweepLoop n (sweep s token index).2 token index else (sweep s token index).2)
    by_cases h : (sweep s token index).1
    · rw [if_pos h]
      exact ih _ token index (sweep_chartInv T X s token index hinv)
    · rw [if_neg h]
      exact sweep_chartInv T X s token index hinv

theorem run_incremental_chartInv (T : List String) (X : String)
    (s : ParserState) (token : String) (index : Nat) (fuel : Nat)
    (hinv : chartInv T X s) :
    chartInv T X (run_incremental s token index fuel) := by
  unfold run_incremental
  by_cases h : index == 0
  · rw [if_pos h]
    exact sweepLoop_chartInv T X fuel _ token index
      (runPredictAdd_chartInv T X s token 0 [s.start_symbol] hinv)
  · rw [if_neg h]
    exact sweepLoop_chartInv T X fuel _ token index hinv

theorem parseLoop_chartInv (T : List String) (X : String) (s : ParserState)
    (stages : List (Nat × String)) (fuel : Nat) (hinv : chartInv T X s) :
    chartInv T X (parseLoop s stages fuel).1 := by
  unfold parseLoop
  exact chartInv_foldl T X (fun acc => acc.1) (parse_stage_step fuel)
    (fun b a hb => run_incremental_chartInv T X b.1 a.2 a.1 fuel hb)
    stages (s, none) hinv

theorem chartInv_initState (g : MCFG) (text : String) :
    chartInv g.terminals (joinSpace (splitOnSpace text)) (initState g text) := by
  refine ⟨keysMatch_initState g text, rfl, rfl, ?_⟩
  intro p hp
  simp [initState] at hp

/-- Witness material for C4: an all-terminal item and a small chart state. -/
def c4wItem : ActiveItem :=
  { symbol := "X", dot_position := (0, 0), found_start := 0, found_end := 1,
    range_order := [0], token_index := 0, action_type := "scan",
    rule := default, found_sequence := ["a"], antecedent_ids := [],
    scanned := false, combined := false, ignored := false, id := 1,
    vector_binding := [["a"]] }

def c4wState : ParserState :=
  { start_symbol := "S", terminals := ["a", "b"], rules := [],
    tokens := ["a", "b"], text := "a b", all_items := [], active_ids := [],
    completed_comp_ids := [], completed_ids := [], prediction_strategy := [],
    combined_couples := [], counter := 0 }

/-- C4: the compatibility filter keeps an item whose `found_sequence`
entries are all terminals exactly when the space-joined `found_sequence` is
a substring of the space-joined input tokens, keeps any item with a
non-terminal entry unconditionally, and consequently every all-terminal
item stored in the chart at the end of a parse has its space-joined
`found_sequence` as a substring of the space-joined input tokens. -/
theorem c4_terminal_items_substring (g : MCFG) (text : String) (fuel : Nat) :
    (∀ (s : ParserState) (its : List ActiveItem) (it : ActiveItem),
      (all_terminals s.terminals it.found_sequence = true →
        (it ∈ filter_out_non_compatible_items s its ↔
          it ∈ its ∧ strContains (joinSpace s.tokens)
            (joinSpace it.found_sequence) = true)) ∧
      (all_terminals s.terminals it.found_sequence = false →
        (it ∈ filter_out_non_compatible_items s its ↔ it ∈ its))) ∧
    (∀ p ∈ (parseFinalState g text fuel).all_items,
      all_terminals g.terminals p.2.found_sequence = true →
      strContains (joinSpace (splitOnSpace text))
        (joinSpace p.2.found_sequence) = true) := by
  constructor
  · intro s its it
    constructor
    · intro hterm
      constructor
      · intro hmem
        have hp := List.of_mem_filter hmem
        refine ⟨List.mem_of_mem_filter hmem, ?_⟩
        have hb : (!all_terminals s.terminals it.found_sequence ||
            strContains (joinSpace s.tokens)
              (joinSpace it.found_sequence)) = true := hp
        rw [hterm] at hb
        simpa using hb
      · rintro ⟨hmem, hsub⟩
        apply List.mem_filter.mpr
        refine ⟨hmem, ?_⟩
        show (!all_terminals s.terminals it.found_sequence ||
          strContains (joinSpace s.tokens)
            (joinSpace it.found_sequence)) = true
        rw [hterm, hsub]
        rfl
    · intro hterm
      constructor
      · intro hmem
        exact List.mem_of_mem_filter hmem
      · intro hmem
        apply List.mem_filter.mpr
        refine ⟨hmem, ?_⟩
        show (!all_terminals s.terminals it.found_sequence ||
          strContains (joinSpace s.tokens)
            (joinSpace it.found_sequence)) = true
        rw [hterm]
        rfl
  · have hinv : chartInv g.terminals (joinSpace (splitOnSpace text))
        (parseFinalState g text fuel) :=
      parseLoop_chartInv g.terminals (joinSpace (splitOnSpace text))
        (initState g text) ((splitOnSpace text).enum) fuel
        (chartInv_initState g text)
    intro p hp hterm
    have hc := hinv.2.2.2 p hp
    have hb : (!all_terminals g.terminals p.2.found_sequence ||
        strContains (joinSpace (splitOnSpace text))
          (joinSpace p.2.found_sequence)) = true := hc
    rw [hterm] at hb
    simpa using hb

theorem c4_terminal_items_substring_witness :
    c4wItem ∈ filter_out_non_compatible_items c4wState [c4wItem] ↔
      c4wItem ∈ [c4wItem] ∧ strContains (joinSpace c4wState.tokens)
        (joinSpace c4wItem.found_sequence) = true :=
  ((c4_terminal_items_substring c7G "a" 1).1 c4wState [c4wItem] c4wItem).1
    (by decide)

/-! ## Claim C6: prediction fires at most once per rule -/

theorem foldl_rules_eq {α β : Type _} (π : β → ParserState) (f : β → α → β)
    (h : ∀ b a, (π (f b a)).rules = (π b).rules) :
    ∀ (l : List α) (b : β), (π (l.foldl f b)).rules = (π b).rules := by
  intro l
  induction l with
  | nil => intro b; rfl
  | cons a rest ih =>
    intro b
    rw [List.foldl_cons, ih (f b a), h b a]

theorem predict_order_step_rules (sym : String) (tidx : Nat)
    (rule : MCFGRule) (vb : List (List String))
    (acc : List ActiveItem × ParserState) (ord : List Nat) :
    ((predict_order_step sym tidx rule vb acc ord).2).rules =
      acc.2.rules := rfl

theorem add_item_to_prediction_strategy_rules (s : ParserState)
    (strategySet : List String) :
    (add_item_to_prediction_strategy s strategySet).rules = s.rules := by
  unfold add_item_to_prediction_strategy
  split
  · rfl
  · rfl

/-- Every item present after the order fold either was already in the
accumulator or is a predict item of the predicted rule. -/
theorem predict_order_fold_mem (sym : String) (tidx : Nat) (rule : MCFGRule)
    (vb : List (List String)) :
    ∀ (l : List (List Nat)) (b : List ActiveItem × ParserState)
      (it : ActiveItem),
    it ∈ (l.foldl (predict_order_step sym tidx rule vb) b).1 →
    it ∈ b.1 ∨ ∃ ord nid, it = predict_item sym tidx rule vb ord nid := by
  intro l
  induction l with
  | nil => intro b it h; exact Or.inl h
  | cons ord rest ih =>
    intro b it h
    have h' : it ∈ (rest.foldl (predict_order_step sym tidx rule vb)
        (predict_order_step sym tidx rule vb b ord)).1 := h
    rcases ih _ it h' with hmem | hex
    · have hmem' : it ∈ b.1 ++
          [predict_item sym tidx rule vb ord (b.2.counter + 1)] := hmem
      rcases List.mem_append.mp hmem' with h1 | h2
      · exact Or.inl h1
      · exact Or.inr ⟨ord, b.2.counter + 1, List.mem_singleton.mp h2⟩
    · exact Or.inr hex

/-- Witness material for C6: an already-used rule in a small state. -/
def c6wRule : MCFGRule :=
  { symbol := "S", rhs := .term "a", vars := [], used := true,
    is_terminating_rule := true }

def c6wState : ParserState :=
  { start_symbol := "S", terminals := ["a"], rules := [c6wRule],
    tokens := ["a"], text := "a", all_items := [], active_ids := [],
    completed_comp_ids := [], completed_ids := [], prediction_strategy := [],
    combined_couples := [], counter := 0 }

/-- C6: prediction of a rule fires at most once per parse.  `predict_rule`
leaves everything untouched when the rule's `used` flag is already set; when
it does emit, the flag was clear, it is set at the rule's position in the
post-state, and every newly emitted item instantiates that rule (carrying
its marked copy); and the `used` flag is sticky over a whole parse, so a
once-predicted rule is skipped by every later `do_predict` invocation. -/
theorem c6_prediction_fires_at_most_once (token : String) (tidx : Nat)
    (sym : String) (acc : List ActiveItem × ParserState) (i : Nat)
    (rule : MCFGRule) (g : MCFG) (text : String) (fuel : Nat) :
    (acc.2.rules.get? i = some rule → rule.used = true →
      predict_rule token tidx sym acc i = acc) ∧
    (acc.2.rules.get? i = some rule →
      (predict_rule token tidx sym acc i).1 ≠ acc.1 →
      rule.used = false ∧
      (predict_rule token tidx sym acc i).2.rules.get? i =
        some { rule with used := true } ∧
      (∀ it, it ∈ (predict_rule token tidx sym acc i).1 → it ∉ acc.1 →
        it.rule = { rule with used := true })) ∧
    (∀ j r, (initState g text).rules.get? j = some r → r.used = true →
      ∃ r', (parseFinalState g text fuel).rules.get? j = some r' ∧
        r'.used = true) := by
  refine ⟨?_, ?_, ?_⟩
  · intro hm hu
    unfold predict_rule
    simp only [hm]
    rw [if_pos hu]
  · intro hm hne
    unfold predict_rule at hne ⊢
    simp only [hm] at hne ⊢
    by_cases hu : rule.used
    · rw [if_pos hu] at hne ⊢
      exact absurd rfl hne
    · rw [if_neg hu] at hne ⊢
      refine ⟨Bool.eq_false_iff.mpr hu, ?_⟩
      by_cases hp : acc.2.terminals.contains
          (((predict_binding_orders acc.2.terminals rule).1.getD 0 []).getD 0 "") &&
          ((predict_binding_orders acc.2.terminals rule).1.getD 0 []).getD 0 "" != token
      · rw [if_pos hp] at hne
        exact absurd rfl hne
      · rw [if_neg hp] at hne ⊢
        constructor
        · rw [foldl_rules_eq Prod.snd
            (predict_order_step sym tidx rule
              (predict_binding_orders acc.2.terminals rule).1)
            (fun b a => predict_order_step_rules sym tidx rule _ b a)]
          rw [show ((acc.1, add_item_to_prediction_strategy
              { acc.2 with rules := acc.2.rules.set i { rule with used := true } }
              (dedupStrs rule.vars)) :
              List ActiveItem × ParserState).2 = add_item_to_prediction_strategy
              { acc.2 with rules := acc.2.rules.set i { rule with used := true } }
              (dedupStrs rule.vars) from rfl]
          rw [add_item_to_prediction_strategy_rules]
          exact get?_set_self _ _ _ (lt_length_of_get?_some hm)
        · intro it hmem hnotin
          rcases predict_order_fold_mem sym tidx rule
              (predict_binding_orders acc.2.terminals rule).1
              (predict_binding_orders acc.2.terminals rule).2
              (acc.1, add_item_to_prediction_strategy
                { acc.2 with rules := acc.2.rules.set i { rule with used := true } }
                (dedupStrs rule.vars)) it hmem with h1 | ⟨ord, nid, hpi⟩
          · exact absurd h1 hnotin
          · rw [hpi]
            rfl
  · intro j r hj hu
    have hfr := (parseLoop_stepOk (initState g text)
      (splitOnSpace text).enum fuel).2 (keysMatch_initState g text)
    obtain ⟨r', hget, _, hused⟩ := hfr.2.2.2.2.1.2 j r hj
    exact ⟨r', hget, hused hu⟩

theorem c6_prediction_fires_at_most_once_witness :
    predict_rule "a" 0 "S" ([], c6wState) 0 = ([], c6wState) :=
  (c6_prediction_fires_at_most_once "a" 0 "S" ([], c6wState) 0 c6wRule
    c7G "a" 1).1 (by decide) (by decide)

theorem c1_parse_success_characterization_witness :
    ∃ it, (parseLoop (initState c5G "e e") ((splitOnSpace "e e").enum) 60).2
        = some it ∧
      it.symbol = c5G.start_symbol ∧ joinSpace it.found_sequence = "e e" ∧
      (parse c5G "e e" 60).getD [] =
        get_parsing_table (parseFinalState c5G "e e" 60).all_items it.id 60 :=
  (c1_parse_success_characterization c5G "e e" 60).2
    ((parse c5G "e e" 60).getD []) (by decide)

/-! ## Claim C9: unproductive rule sets simplify to nothing and reject -/

/-- A symbol is productive: some rule for it is terminating, or every
non-terminal symbol of that rule's right-hand side is itself productive
(the closure computed by `eliminate_useless_rules`). -/
inductive ProductiveSym (terminals : List String) (rules : List MCFGRule) :
    String → Prop
  | term (r : MCFGRule) : r ∈ rules → r.is_terminating_rule = true →
      ProductiveSym terminals rules r.symbol
  | step (r : MCFGRule) : r ∈ rules →
      (∀ x ∈ get_right_hand_side terminals r, x ∉ terminals →
        ProductiveSym terminals rules x) →
      ProductiveSym terminals rules r.symbol

/-- A rule of the set is productive: it is terminating, or every
non-terminal symbol of its right-hand side is productive. -/
def ProductiveRule (terminals : List String) (rules : List MCFGRule)
    (r : MCFGRule) : Prop :=
  r ∈ rules ∧ (r.is_terminating_rule = true ∨
    ∀ x ∈ get_right_hand_side terminals r, x ∉ terminals →
      ProductiveSym terminals rules x)

theorem eliminate_useless_empty (terminals : List String)
    (rules : List MCFGRule)
    (hterm : ∀ r ∈ rules, r.is_terminating_rule = false)
    (hrhs : ∀ r ∈ rules, all_vector_components_in_set
      (get_right_hand_side terminals r) terminals = false) :
    eliminate_useless_rules terminals rules = [] := by
  unfold eliminate_useless_rules
  have hstart : ∀ (l : List MCFGRule),
      (∀ r ∈ l, r.is_terminating_rule = false) →
      l.foldl (fun (p : List MCFGRule × List String) r =>
        if r.is_terminating_rule then (addRule p.1 r, addStr p.2 r.symbol)
        else p) ([], terminals) = ([], terminals) := by
    intro l
    induction l with
    | nil => intro _; rfl
    | cons r rest ih =>
      intro hall
      simp only [List.foldl_cons]
      rw [if_neg (by simp [hall r (List.mem_cons_self _ _)])]
      exact ih (fun x hx => hall x (List.mem_cons_of_mem _ hx))
  have hup : ∀ (l : List MCFGRule),
      (∀ r ∈ l, all_vector_components_in_set
        (get_right_hand_side terminals r) terminals = false) →
      usefulPass terminals l ([], terminals) = ([], terminals) := by
    intro l
    induction l with
    | nil => intro _; rfl
    | cons r rest ih =>
      intro hall
      show (r :: rest).foldl (fun (p : List MCFGRule × List String) r =>
        if all_vector_components_in_set (get_right_hand_side terminals r) p.2
        then (addRule p.1 r, addStr p.2 r.symbol)
        else p) ([], terminals) = ([], terminals)
      simp only [List.foldl_cons]
      rw [if_neg (by simp [hall r (List.mem_cons_self _ _)])]
      exact ih (fun x hx => hall x (List.mem_cons_of_mem _ hx))
  rw [hstart rules hterm]
  show (let up := usefulPass terminals rules ([], terminals)
        let uo := update_original_rules up.1 rules
        if (!uo.2) = true then [] else
          uselessLoop terminals (rules.length + 1) up.1 uo.1 up.2) = []
  rw [hup rules hrhs]
  show (let uo := update_original_rules (([], terminals) :
          List MCFGRule × List String).1 rules
        if (!uo.2) = true then [] else
          uselessLoop terminals (rules.length + 1)
            (([], terminals) : List MCFGRule × List String).1 uo.1
            (([], terminals) : List MCFGRule × List String).2) = []
  rfl

theorem eliminate_unreachable_nil (terminals : List String) (ss : String) :
    eliminate_unreachable_rules terminals ss [] = [] := rfl

theorem lookupItem_noitems (s : ParserState) (ha : s.all_items = [])
    (j : Nat) : lookupItem s j = none := by
  unfold lookupItem aLookup
  rw [ha]
  rfl

theorem get_items_list_noitems (s : ParserState) (ha : s.all_items = [])
    (role : Role) : get_items_list s role = [] := by
  unfold get_items_list
  apply List.filterMap_eq_nil_iff.mpr
  intro j _
  rw [lookupItem_noitems s ha j]

theorem nonIgnoredIds_noitems (s : ParserState) (ha : s.all_items = [])
    (role : Role) : nonIgnoredIds s role = [] := by
  unfold nonIgnoredIds
  apply List.filter_eq_nil_iff.mpr
  intro j _
  rw [lookupItem_noitems s ha j]
  simp

theorem find_goal_noitems (s : ParserState) (ha : s.all_items = []) :
    find_goal s = none := by
  unfold find_goal
  rw [get_items_list_noitems s ha Role.completed]
  rfl

theorem do_scan_noitems (s : ParserState) (ha : s.all_items = [])
    (aid : Nat) (tok : String) (idx : Nat) :
    do_scan s aid tok idx = (([], []), s) := by
  unfold do_scan
  rw [lookupItem_noitems s ha aid]

theorem do_combine_noitems (s : ParserState) (ha : s.all_items = [])
    (did idx : Nat) (snap : List Nat) :
    do_combine s did idx snap = (([], []), s) := by
  unfold do_combine
  rw [lookupItem_noitems s ha did]

theorem ruleIdxsFor_nil (sym : String) : ruleIdxsFor [] sym = [] := by
  simp [ruleIdxsFor]

theorem predict_symbol_norules (tok : String) (idx : Nat)
    (acc : List ActiveItem × ParserState) (sym : String)
    (hr : acc.2.rules = []) : predict_symbol tok idx acc sym = acc := by
  unfold predict_symbol
  rw [hr, ruleIdxsFor_nil]
  rfl

theorem do_predict_norules (s : ParserState) (hr : s.rules = [])
    (tok : String) (idx : Nat) (strategy : List String) :
    do_predict s tok idx strategy = ([], s) := by
  unfold do_predict
  have h : ∀ (l : List String) (acc : List ActiveItem × ParserState),
      acc.2.rules = [] → l.foldl (predict_symbol tok idx) acc = acc := by
    intro l
    induction l with
    | nil => intro acc _; rfl
    | cons sym rest ih =>
      intro acc hacc
      rw [List.foldl_cons, predict_symbol_norules tok idx acc sym hacc]
      exact ih acc hacc
  exact h strategy ([], s) hr

theorem runPredictAdd_empty_state (s : ParserState) (hr : s.rules = [])
    (tok : String) (idx : Nat) (strategy : List String) :
    runPredictAdd s tok idx strategy = (false, s) := by
  unfold runPredictAdd
  rw [do_predict_norules s hr tok idx strategy]
  rfl

theorem runScanAdd_empty_state (s : ParserState) (ha : s.all_items = [])
    (aid : Nat) (tok : String) (idx : Nat) :
    runScanAdd s aid tok idx = (false, s) := by
  unfold runScanAdd
  rw [do_scan_noitems s ha aid tok idx]
  rfl

theorem runCombineAdd_empty_state (s : ParserState) (ha : s.all_items = [])
    (did idx : Nat) (snap : List Nat) :
    runCombineAdd s did idx snap = (false, s) := by
  unfold runCombineAdd
  rw [do_combine_noitems s ha did idx snap]
  rfl

theorem sweep_empty_state (s : ParserState) (hr : s.rules = [])
    (ha : s.all_items = []) (tok : String) (idx : Nat) :
    sweep s tok idx = (false, s) := by
  unfold sweep
  rw [runPredictAdd_empty_state s hr tok idx s.prediction_strategy]
  simp only [nonIgnoredIds_noitems s ha, List.foldl_nil]
  rfl

theorem sweepLoop_empty_state (fuel : Nat) :
    ∀ (s : ParserState), s.rules = [] → s.all_items = [] →
    ∀ (tok : String) (idx : Nat), sweepLoop fuel s tok idx = s := by
  induction fuel with
  | zero => intro s _ _ tok idx; rfl
  | succ n _ =>
    intro s hr ha tok idx
    show (if (sweep s tok idx).1 then
      sweepLoop n (sweep s tok idx).2 tok idx else (sweep s tok idx).2) = s
    rw [sweep_empty_state s hr ha tok idx]
    simp

theorem run_incremental_empty_state (s : ParserState) (hr : s.rules = [])
    (ha : s.all_items = []) (tok : String) (idx : Nat) (fuel : Nat) :
    run_incremental s tok idx fuel = s := by
  unfold run_incremental
  by_cases h : idx == 0
  · rw [if_pos h]
    rw [runPredictAdd_empty_state s hr tok 0 [s.start_symbol]]
    exact sweepLoop_empty_state fuel s hr ha tok idx
  · rw [if_neg h]
    exact sweepLoop_empty_state fuel s hr ha tok idx

theorem parse_stage_step_empty_state (fuel : Nat) (s : ParserState)
    (hr : s.rules = []) (ha : s.all_items = []) (st : Nat × String) :
    parse_stage_step fuel (s, none) st = (s, none) := by
  show (run_incremental s st.2 st.1 fuel,
    match find_goal (run_incremental s st.2 st.1 fuel) with
    | some g => some g
    | none => (none : Option ActiveItem)) = (s, none)
  rw [run_incremental_empty_state s hr ha st.2 st.1 fuel]
  rw [find_goal_noitems s ha]

theorem foldl_fixed {α β : Type _} (f : β → α → β) (b : β)
    (h : ∀ a, f b a = b) : ∀ l : List α, l.foldl f b = b := by
  intro l
  induction l with
  | nil => rfl
  | cons a rest ih =>
    rw [List.foldl_cons, h a]
    exact ih

theorem parse_empty_grammar (g : MCFG) (hg : g.rules = []) (text : String)
    (fuel : Nat) : parse g text fuel = none := by
  have hs0r : (initState g text).rules = [] := hg
  have hs0a : (initState g text).all_items = [] := rfl
  have hloop : parseLoop (initState g text) ((splitOnSpace text).enum) fuel =
      (initState g text, none) := by
    unfold parseLoop
    exact foldl_fixed _ _
      (fun st => parse_stage_step_empty_state fuel _ hs0r hs0a st) _
  show (match (parseLoop (initState g text) ((splitOnSpace text).enum)
      fuel).2 with
    | some it => some (get_parsing_table (parseLoop (initState g text)
        ((splitOnSpace text).enum) fuel).1.all_items it.id fuel)
    | none => none) = none
  rw [hloop]

/-- C9: when no rule of the input set is productive, `eliminate_useless_rules`
finds nothing useful, so grammar simplification returns the empty rule set,
and parsing with the resulting (empty) grammar fails on every input. -/
theorem c9_unproductive_rules_reject (terminals : List String) (ss : String)
    (rules : List MCFGRule) (text : String) (fuel : Nat)
    (hnp : ∀ r ∈ rules, ¬ ProductiveRule terminals rules r) :
    simplify terminals ss rules = [] ∧
    parse { start_symbol := ss, terminals := terminals,
            rules := simplify terminals ss rules } text fuel = none := by
  have hterm : ∀ r ∈ rules, r.is_terminating_rule = false := by
    intro r hr
    cases h : r.is_terminating_rule
    · rfl
    · exact absurd ⟨hr, Or.inl h⟩ (hnp r hr)
  have hrhs : ∀ r ∈ rules, all_vector_components_in_set
      (get_right_hand_side terminals r) terminals = false := by
    intro r hr
    cases h : all_vector_components_in_set
        (get_right_hand_side terminals r) terminals
    · rfl
    · exfalso
      have hmem : ∀ x ∈ get_right_hand_side terminals r, x ∈ terminals := by
        intro x hx
        have hcx := List.all_eq_true.mp h x hx
        simpa using hcx
      exact hnp r hr ⟨hr, Or.inr (fun x hx hnx => absurd (hmem x hx) hnx)⟩
  have heul : eliminate_useless_rules terminals rules = [] :=
    eliminate_useless_empty terminals rules hterm hrhs
  have h1 : simplify terminals ss rules = [] := by
    unfold simplify
    rw [heul]
    exact eliminate_unreachable_nil terminals ss
  exact ⟨h1, parse_empty_grammar _ h1 text fuel⟩

/-- Witness material for C9: the lone non-terminating rule S -> f(S). -/
def c9wRule : MCFGRule :=
  { symbol := "S", rhs := RuleRHS.fn ⟨"f", ["S"], [["S(0)"]]⟩,
    vars := ["S"], used := false, is_terminating_rule := false }

def c9wRules : List MCFGRule := [c9wRule]

theorem c9w_no_prod_sym : ∀ x, ¬ ProductiveSym ["a"] c9wRules x := by
  intro x h
  induction h with
  | term r hmem hterm =>
    have hre : r = c9wRule := by simpa [c9wRules] using hmem
    rw [hre] at hterm
    exact absurd hterm (by decide)
  | step r hmem _ ih =>
    have hre : r = c9wRule := by simpa [c9wRules] using hmem
    refine ih "S" ?_ ?_
    · rw [hre]
      decide
    · decide

theorem c9wRules_unproductive :
    ∀ r ∈ c9wRules, ¬ ProductiveRule ["a"] c9wRules r := by
  intro r hr hp
  obtain ⟨hmem, hcase⟩ := hp
  have hre : r = c9wRule := by simpa [c9wRules] using hmem
  rcases hcase with hterm | hall
  · rw [hre] at hterm
    exact absurd hterm (by decide)
  · refine c9w_no_prod_sym "S" (hall "S" ?_ ?_)
    · rw [hre]
      decide
    · decide

theorem c9_unproductive_rules_reject_witness :
    simplify ["a"] "S" c9wRules = [] ∧
    parse { start_symbol := "S", terminals := ["a"],
            rules := simplify ["a"] "S" c9wRules } "a" 5 = none :=
  c9_unproductive_rules_reject ["a"] "S" c9wRules "a" 5 c9wRules_unproductive

end MCFGParse
